import Mathlib

/-!
Page allocator (`src/threads/palloc.c`)

A shallow embedding of the Pintos page allocator.  The allocator state is two
pools (kernel, user), each a bitmap of used pages plus a base address, and the
two global counters `total_pages` and `free_pages`.

Conventions of the embedding:

* addresses and `size_t` values are natural numbers; arithmetic that the C code
  performs on `size_t` / pointers is reduced modulo `2 ^ 32` (the i386 word);
* `NULL` is address `0`;
* a call either returns (`Outcome.ret`) or aborts the kernel
  (`Outcome.abort`), and in both cases carries the state reached;
* the state records a trace of the lock operations and `memset` writes the
  call performed, in program order;
* the build is the default one, `NDEBUG` undefined: `ASSERT` is checked and the
  `0xcc` fill of `palloc_free_multiple` is compiled in.
-/

namespace Palloc

/-! ## Constants and helpers of headers that are not among the sources -/

/-- Modelled from the spec: `PGSIZE` of `threads/vaddr.h`, the fixed page size
in bytes (`1 << 12` on i386). -/
def PGSIZE : Nat := 4096

/-- Modelled from the spec: the width of `size_t` and of pointers (i386);
values wrap modulo this. -/
def WORD : Nat := 2 ^ 32

/-- Modelled from the spec: `PHYS_BASE` of `threads/vaddr.h`, the virtual
address at which physical memory is mapped. -/
def PHYS_BASE : Nat := 0xc0000000

/-- Modelled from the spec: `pg_no` of `threads/vaddr.h`, the page number of an
address. -/
def pg_no (va : Nat) : Nat := va / PGSIZE

/-- Modelled from the spec: `pg_ofs` of `threads/vaddr.h`, the offset of an
address within its page. -/
def pg_ofs (va : Nat) : Nat := va % PGSIZE

/-- Modelled from the spec: `ptov` of `threads/vaddr.h`, the kernel virtual
address of a physical address (pointer arithmetic, so modulo the word). -/
def ptov (paddr : Nat) : Nat := (paddr + PHYS_BASE) % WORD

/-- Modelled from the spec: `DIV_ROUND_UP` of `round.h`. -/
def DIV_ROUND_UP (x step : Nat) : Nat := (x + step - 1) / step

/-- Modelled from the spec: flag `PAL_ASSERT` of `threads/palloc.h`. -/
def PAL_ASSERT : Nat := 1

/-- Modelled from the spec: flag `PAL_ZERO` of `threads/palloc.h`. -/
def PAL_ZERO : Nat := 2

/-- Modelled from the spec: flag `PAL_USER` of `threads/palloc.h`. -/
def PAL_USER : Nat := 4

/-- The C test `flags & F` of a flag word against a flag. -/
def has_flag (flags f : Nat) : Bool := (flags &&& f) != 0

/-- `size_t` subtraction `a - b`, wrapping modulo the word. -/
def size_sub (a b : Nat) : Nat := (a % WORD + (WORD - b % WORD)) % WORD

/-- `size_t` addition `a + b`, wrapping modulo the word. -/
def size_add (a b : Nat) : Nat := (a + b) % WORD

/-! ## The bitmap collaborator (`lib/kernel/bitmap.c`, not among the sources) -/

/-- Modelled from the spec: a bitmap is its sequence of bits, `true` = used. -/
abbrev Bitmap := List Bool

/-- Modelled from the spec: `bitmap_size`, the number of bits. -/
def bitmap_size (b : Bitmap) : Nat := b.length

/-- Modelled from the spec: `bitmap_buf_size`, the bytes needed to store a
bitmap of `bit_cnt` bits: the header (two words) and the bits rounded up to
whole 32-bit elements. -/
def bitmap_buf_size (bit_cnt : Nat) : Nat := 8 + 4 * DIV_ROUND_UP bit_cnt 32

/-- Modelled from the spec: `bitmap_create_in_buf`, a bitmap of `bit_cnt` bits,
all free, stored in a block of `block_size` bytes; the block must be large
enough (an assertion, `none` when it fails). -/
def bitmap_create_in_buf (bit_cnt block_size : Nat) : Option Bitmap :=
  if bitmap_buf_size bit_cnt ≤ block_size then some (List.replicate bit_cnt false)
  else none

/-- Modelled from the spec: the loop of `bitmap_set_multiple`, after `i`
iterations: bits `start .. start + i - 1` have been set to `value`. -/
def bitmap_set_loop (b : Bitmap) (start : Nat) (value : Bool) : Nat → Bitmap
  | 0 => b
  | i + 1 => (bitmap_set_loop b start value i).set (start + i) value

/-- Modelled from the spec: `bitmap_set_multiple`, the range-set operation:
sets the `cnt` bits from `start` to `value`; the range must lie inside the
bitmap (an assertion, `none` when it fails). -/
def bitmap_set_multiple (b : Bitmap) (start cnt : Nat) (value : Bool) : Option Bitmap :=
  if start ≤ b.length ∧ start + cnt ≤ b.length then some (bitmap_set_loop b start value cnt)
  else none

/-- Modelled from the spec: `bitmap_contains`, whether any of the `cnt` bits
from `start` equals `value`. -/
def bitmap_contains (b : Bitmap) (start cnt : Nat) (value : Bool) : Bool :=
  (List.range cnt).any (fun i => b.getD (start + i) false == value)

/-- Modelled from the spec: `bitmap_scan`, the lowest index `i ≥ start` such
that the `cnt` bits from `i` all equal `value` (`none` is `BITMAP_ERROR`). -/
def bitmap_scan (b : Bitmap) (start cnt : Nat) (value : Bool) : Option Nat :=
  if cnt ≤ b.length then
    (List.range' start (b.length - cnt + 1 - start)).find?
      (fun i => !bitmap_contains b i cnt (!value))
  else none

/-- Modelled from the spec: `bitmap_scan_and_flip`, scan for the lowest run of
`cnt` bits equal to `value` and, when found, flip them all; returns the index
(`none` is `BITMAP_ERROR`) and the bitmap afterwards. -/
def bitmap_scan_and_flip (b : Bitmap) (start cnt : Nat) (value : Bool) : Option Nat × Bitmap :=
  match bitmap_scan b start cnt value with
  | some idx => (some idx, bitmap_set_loop b idx (!value) cnt)
  | none => (none, b)

/-! ## Allocator state -/

/-- The two pools. -/
inductive PoolId where
  | kernel
  | user
  deriving DecidableEq, Repr

/-- What a call did, in program order, besides the state updates themselves:
lock operations on a pool's lock, calls of a bitmap operation on a pool's
`used_map` (`bitmap_scan_and_flip`, `bitmap_set_multiple`), and `memset`
writes to page memory. -/
inductive Event where
  | lock_acquire (p : PoolId)
  | lock_release (p : PoolId)
  | bitmap_op (p : PoolId)
  | memset (dst byte len : Nat)
  deriving DecidableEq, Repr

/-- How a call can abort the kernel. -/
inductive Abort where
  | assertion
  | panic
  | not_reached
  deriving DecidableEq, Repr

/-- `struct pool`: the bitmap of used pages and the base address (the lock is
represented by the lock events of the trace). -/
structure Pool where
  used_map : Bitmap
  base : Nat
  deriving DecidableEq, Repr

/-- The global state of `palloc.c`. -/
structure State where
  total_pages : Nat
  free_pages : Nat
  kernel_pool : Pool
  user_pool : Pool
  trace : List Event
  deriving DecidableEq, Repr

/-- The result of a call: it returns a value or aborts, in a state. -/
inductive Outcome (α : Type) where
  | ret (v : α) (s : State)
  | abort (k : Abort) (s : State)
  deriving DecidableEq, Repr

/-- Sequencing of two statements: the second runs in the state the first
returns in, and an abort of the first ends the call. -/
def Outcome.seq (o : Outcome Unit) (f : State → Outcome Unit) : Outcome Unit :=
  match o with
  | Outcome.abort k s => Outcome.abort k s
  | Outcome.ret _ s => f s

/-- The pool an id denotes (`&kernel_pool`, `&user_pool`). -/
def State.pool (s : State) : PoolId → Pool
  | PoolId.kernel => s.kernel_pool
  | PoolId.user => s.user_pool

/-- Assignment through a pool pointer. -/
def State.set_pool (s : State) (p : PoolId) (q : Pool) : State :=
  match p with
  | PoolId.kernel =>
    { total_pages := s.total_pages, free_pages := s.free_pages, kernel_pool := q,
      user_pool := s.user_pool, trace := s.trace }
  | PoolId.user =>
    { total_pages := s.total_pages, free_pages := s.free_pages, kernel_pool := s.kernel_pool,
      user_pool := q, trace := s.trace }

/-- Assignment to `free_pages`. -/
def State.set_free_pages (s : State) (n : Nat) : State :=
  { total_pages := s.total_pages, free_pages := n, kernel_pool := s.kernel_pool,
    user_pool := s.user_pool, trace := s.trace }

/-- A pool after its bitmap has been updated in place. -/
def Pool.set_used_map (p : Pool) (m : Bitmap) : Pool := { used_map := m, base := p.base }

/-- Append an event to the trace. -/
def State.log (s : State) (e : Event) : State :=
  { total_pages := s.total_pages, free_pages := s.free_pages, kernel_pool := s.kernel_pool,
    user_pool := s.user_pool, trace := s.trace ++ [e] }

/-- The state before `palloc_init`: zeroed statics. -/
def State.boot : State :=
  { total_pages := 0, free_pages := 0,
    kernel_pool := { used_map := [], base := 0 },
    user_pool := { used_map := [], base := 0 },
    trace := [] }

/-! ## `palloc.c` -/

/-- The number of pages the bitmap of a pool of `page_cnt` pages occupies
(`bm_pages` of `init_pool`). -/
def bm_pages (page_cnt : Nat) : Nat := DIV_ROUND_UP (bitmap_buf_size page_cnt) PGSIZE

/-- `init_pool`: reserve the bitmap pages at the head of the region, panic when
the region cannot hold its own bitmap. -/
def init_pool (p : PoolId) (base page_cnt : Nat) (s : State) : Outcome Unit :=
  if bm_pages page_cnt > page_cnt then Outcome.abort Abort.panic s
  else
    let page_cnt' := page_cnt - bm_pages page_cnt
    match bitmap_create_in_buf page_cnt' (bm_pages page_cnt * PGSIZE) with
    | none => Outcome.abort Abort.assertion s
    | some used_map =>
      Outcome.ret () (s.set_pool p
        { used_map := used_map, base := (base + bm_pages page_cnt * PGSIZE) % WORD })

/-- `free_start` of `palloc_init`. -/
def free_start : Nat := ptov (1024 * 1024)

/-- `free_end` of `palloc_init`. -/
def free_end (init_ram_pages : Nat) : Nat := ptov ((init_ram_pages * PGSIZE) % WORD)

/-- `total_free_pages` of `palloc_init`: the pointer difference divided by the
page size (C division, truncating), converted to `size_t`. -/
def total_free_pages (init_ram_pages : Nat) : Nat :=
  (Int.tdiv ((free_end init_ram_pages : Int) - (free_start : Int)) (PGSIZE : Int)
    % (WORD : Int)).toNat

/-- `user_pages` of `palloc_init`: half of the pages, at most the limit. -/
def user_pages (init_ram_pages user_page_limit : Nat) : Nat :=
  if total_free_pages init_ram_pages / 2 > user_page_limit then user_page_limit
  else total_free_pages init_ram_pages / 2

/-- `kernel_pages` of `palloc_init`: the rest. -/
def kernel_pages (init_ram_pages user_page_limit : Nat) : Nat :=
  size_sub (total_free_pages init_ram_pages) (user_pages init_ram_pages user_page_limit)

/-- `palloc_init`, run on the boot state; `init_ram_pages` is the loader's
count of physical pages.  The counters are set first, then the kernel pool and
the user pool are initialised in this order. -/
def palloc_init (init_ram_pages user_page_limit : Nat) : Outcome Unit :=
  Outcome.seq
    (init_pool PoolId.kernel free_start (kernel_pages init_ram_pages user_page_limit)
      { total_pages := total_free_pages init_ram_pages
        free_pages := total_free_pages init_ram_pages
        kernel_pool := State.boot.kernel_pool
        user_pool := State.boot.user_pool
        trace := State.boot.trace })
    (fun s' => init_pool PoolId.user
      ((free_start + kernel_pages init_ram_pages user_page_limit * PGSIZE) % WORD)
      (user_pages init_ram_pages user_page_limit) s')

/-- `page_from_pool`: whether the page of an address lies in a pool. -/
def page_from_pool (pool : Pool) (page : Nat) : Bool :=
  let page_no := pg_no page
  let start_page := pg_no pool.base
  let end_page := size_add start_page (bitmap_size pool.used_map)
  decide (page_no ≥ start_page) && decide (page_no < end_page)

/-- The pool `palloc_get_multiple` selects. -/
def select_pool (flags : Nat) : PoolId :=
  if has_flag flags PAL_USER then PoolId.user else PoolId.kernel

/-- `palloc_get_multiple`; the result is the address, `0` for `NULL`. -/
def palloc_get_multiple (flags page_cnt : Nat) (s : State) : Outcome Nat :=
  let p := select_pool flags
  if page_cnt = 0 then Outcome.ret 0 s
  else
    let s1 := (s.log (Event.lock_acquire p)).log (Event.bitmap_op p)
    let r := bitmap_scan_and_flip (s1.pool p).used_map 0 page_cnt false
    let s2 := s1.set_pool p ((s1.pool p).set_used_map r.2)
    let s3 := s2.log (Event.lock_release p)
    match r.1 with
    | some page_idx =>
      let pages := ((s3.pool p).base + PGSIZE * page_idx) % WORD
      let s4 := s3.set_free_pages (size_sub s3.free_pages page_cnt)
      let s5 := if has_flag flags PAL_ZERO
                then s4.log (Event.memset pages 0 ((PGSIZE * page_cnt) % WORD)) else s4
      Outcome.ret pages s5
    | none =>
      if has_flag flags PAL_ASSERT then Outcome.abort Abort.panic s3
      else Outcome.ret 0 s3

/-- `palloc_get_page`. -/
def palloc_get_page (flags : Nat) (s : State) : Outcome Nat :=
  palloc_get_multiple flags 1 s

/-- The pool `palloc_free_multiple` attributes an address to: the kernel pool
is asked first, then the user pool; `none` is the `NOT_REACHED` branch. -/
def owner_pool (s : State) (pages : Nat) : Option PoolId :=
  if page_from_pool s.kernel_pool pages then some PoolId.kernel
  else if page_from_pool s.user_pool pages then some PoolId.user
  else none

/-- `palloc_free_multiple`. -/
def palloc_free_multiple (pages page_cnt : Nat) (s : State) : Outcome Unit :=
  if pg_ofs pages ≠ 0 then Outcome.abort Abort.assertion s
  else if pages = 0 ∨ page_cnt = 0 then Outcome.ret () s
  else
    match owner_pool s pages with
    | none => Outcome.abort Abort.not_reached s
    | some p =>
      let page_idx := size_sub (pg_no pages) (pg_no (s.pool p).base)
      let s1 := (s.log (Event.memset pages 0xcc ((PGSIZE * page_cnt) % WORD))).log
        (Event.bitmap_op p)
      match bitmap_set_multiple (s1.pool p).used_map page_idx page_cnt false with
      | none => Outcome.abort Abort.assertion s1
      | some m =>
        let s2 := s1.set_pool p ((s1.pool p).set_used_map m)
        Outcome.ret () (s2.set_free_pages (size_add s2.free_pages page_cnt))

/-- `palloc_free_page`. -/
def palloc_free_page (page : Nat) (s : State) : Outcome Unit :=
  palloc_free_multiple page 1 s

/-- The used-page count `report_memory_usage` prints. -/
def report_used_pages (s : State) : Nat := size_sub s.total_pages s.free_pages

/-! ## Specification vocabulary -/

/-- The number of free (zero) bits of a bitmap. -/
def free_bits (b : Bitmap) : Nat := b.count false

/-- The `cnt` bits of `b` from index `i` exist and all equal `value`. -/
def is_run (b : Bitmap) (i cnt : Nat) (value : Bool) : Prop :=
  i + cnt ≤ b.length ∧ ∀ k, k < cnt → b[i + k]? = some value

instance (b : Bitmap) (i cnt : Nat) (value : Bool) : Decidable (is_run b i cnt value) := by
  unfold is_run; infer_instance

/-- The capacity of a pool: the number of bits of its bitmap. -/
def Pool.capacity (p : Pool) : Nat := bitmap_size p.used_map

/-- The index of the page of an address within a pool, as `palloc_free_multiple`
computes it. -/
def page_index (p : Pool) (a : Nat) : Nat := pg_no a - pg_no p.base

/-- The other pool. -/
def PoolId.other : PoolId → PoolId
  | PoolId.kernel => PoolId.user
  | PoolId.user => PoolId.kernel

/-- The loader's page count describes memory the kernel can address: at least
the low megabyte that `palloc_init` skips, and less than the gigabyte that is
mapped from `PHYS_BASE` to the top of the address space. -/
def ram_ok (init_ram_pages : Nat) : Prop :=
  256 ≤ init_ram_pages ∧ init_ram_pages * PGSIZE < 2 ^ 30

instance (r : Nat) : Decidable (ram_ok r) := by
  unfold ram_ok; infer_instance

/-- A block held by a caller: the address it was given and its page count. -/
abbrev Block := Nat × Nat

/-- The number of pages in a list of held blocks. -/
def held_pages (h : List Block) : Nat := (h.map Prod.snd).sum

/-- The states reachable from `palloc_init init_ram_pages user_page_limit` by
calls of `palloc_get_multiple` and by calls of `palloc_free_multiple` on blocks
currently held by callers, together with the blocks held.  A successful
allocation adds its block, a free removes the block it frees. -/
inductive Reachable (r l : Nat) : State → List Block → Prop where
  | init (s : State) :
      ram_ok r → palloc_init r l = Outcome.ret () s → Reachable r l s []
  | get (s s' : State) (h : List Block) (flags cnt a : Nat) :
      Reachable r l s h → palloc_get_multiple flags cnt s = Outcome.ret a s' →
      Reachable r l s' (if a = 0 then h else (a, cnt) :: h)
  | free (s s' : State) (h : List Block) (a cnt : Nat) :
      Reachable r l s h → (a, cnt) ∈ h → palloc_free_multiple a cnt s = Outcome.ret () s' →
      Reachable r l s' (h.erase (a, cnt))

/-- The state `palloc_init` leaves when both pools can hold their bitmaps. -/
def init_state (r l : Nat) : State :=
  { total_pages := total_free_pages r
    free_pages := total_free_pages r
    kernel_pool :=
      { used_map := List.replicate (kernel_pages r l - bm_pages (kernel_pages r l)) false
        base := (free_start + bm_pages (kernel_pages r l) * PGSIZE) % WORD }
    user_pool :=
      { used_map := List.replicate (user_pages r l - bm_pages (user_pages r l)) false
        base := ((free_start + kernel_pages r l * PGSIZE) % WORD
                  + bm_pages (user_pages r l) * PGSIZE) % WORD }
    trace := [] }

/-- The layout of `s` is that of `s0`: same total, same bases, same capacities. -/
def same_layout (s0 s : State) : Prop :=
  s.total_pages = s0.total_pages ∧
  s.kernel_pool.base = s0.kernel_pool.base ∧
  s.kernel_pool.capacity = s0.kernel_pool.capacity ∧
  s.user_pool.base = s0.user_pool.base ∧
  s.user_pool.capacity = s0.user_pool.capacity

/-- The state after `palloc_init` on a machine of 356 pages (100 pages above
the first megabyte) with a user limit of 1000: each pool is carved 50 pages and
keeps 49 after its bitmap page. -/
def demo_state : State :=
  { total_pages := 100
    free_pages := 100
    kernel_pool := { used_map := List.replicate 49 false, base := 3222278144 }
    user_pool := { used_map := List.replicate 49 false, base := 3222482944 }
    trace := [] }

/-- The state after three pages have been taken from the fresh user pool of
`demo_state`. -/
def demo_state_alloc : State :=
  { total_pages := 100
    free_pages := 97
    kernel_pool := { used_map := List.replicate 49 false, base := 3222278144 }
    user_pool := { used_map := [true, true, true] ++ List.replicate 46 false,
                   base := 3222482944 }
    trace := [Event.lock_acquire PoolId.user, Event.bitmap_op PoolId.user,
              Event.lock_release PoolId.user] }

/-- The state after a second block of three pages has been taken from the user
pool, in `demo_state_alloc`. -/
def demo_state_alloc2 : State :=
  { total_pages := 100
    free_pages := 94
    kernel_pool := { used_map := List.replicate 49 false, base := 3222278144 }
    user_pool := { used_map := [true, true, true, true, true, true] ++ List.replicate 43 false,
                   base := 3222482944 }
    trace := [Event.lock_acquire PoolId.user, Event.bitmap_op PoolId.user,
              Event.lock_release PoolId.user,
              Event.lock_acquire PoolId.user, Event.bitmap_op PoolId.user,
              Event.lock_release PoolId.user] }

/-- The state after the three user pages of `demo_state_alloc` have been
freed. -/
def demo_user_freed : State :=
  { total_pages := 100
    free_pages := 100
    kernel_pool := { used_map := List.replicate 49 false, base := 3222278144 }
    user_pool := { used_map := List.replicate 49 false, base := 3222482944 }
    trace := [Event.lock_acquire PoolId.user, Event.bitmap_op PoolId.user,
              Event.lock_release PoolId.user,
              Event.memset 3222482944 204 12288, Event.bitmap_op PoolId.user] }

/-- The state after one page has been taken from the fresh kernel pool of
`demo_state`. -/
def demo_kernel_alloc : State :=
  { total_pages := 100
    free_pages := 99
    kernel_pool := { used_map := [true] ++ List.replicate 48 false, base := 3222278144 }
    user_pool := { used_map := List.replicate 49 false, base := 3222482944 }
    trace := [Event.lock_acquire PoolId.kernel, Event.bitmap_op PoolId.kernel,
              Event.lock_release PoolId.kernel] }

/-- The state after that kernel page has been freed. -/
def demo_kernel_freed : State :=
  { total_pages := 100
    free_pages := 100
    kernel_pool := { used_map := List.replicate 49 false, base := 3222278144 }
    user_pool := { used_map := List.replicate 49 false, base := 3222482944 }
    trace := [Event.lock_acquire PoolId.kernel, Event.bitmap_op PoolId.kernel,
              Event.lock_release PoolId.kernel,
              Event.memset 3222278144 204 4096, Event.bitmap_op PoolId.kernel] }

/-- The state after that kernel page has been freed a second time. -/
def demo_kernel_freed_twice : State :=
  { total_pages := 100
    free_pages := 101
    kernel_pool := { used_map := List.replicate 49 false, base := 3222278144 }
    user_pool := { used_map := List.replicate 49 false, base := 3222482944 }
    trace := [Event.lock_acquire PoolId.kernel, Event.bitmap_op PoolId.kernel,
              Event.lock_release PoolId.kernel,
              Event.memset 3222278144 204 4096, Event.bitmap_op PoolId.kernel,
              Event.memset 3222278144 204 4096, Event.bitmap_op PoolId.kernel] }

/-- The state after three zeroed pages have been taken from the fresh user pool
of `demo_state`. -/
def demo_state_zero : State :=
  { total_pages := 100
    free_pages := 97
    kernel_pool := { used_map := List.replicate 49 false, base := 3222278144 }
    user_pool := { used_map := [true, true, true] ++ List.replicate 46 false,
                   base := 3222482944 }
    trace := [Event.lock_acquire PoolId.user, Event.bitmap_op PoolId.user,
              Event.lock_release PoolId.user, Event.memset 3222482944 0 12288] }

/-- A `memset`: the byte is stored at the `len` addresses from `dst`. -/
def memset_store (dst byte len : Nat) (mem : Nat → Nat) : Nat → Nat :=
  fun x => if dst ≤ x ∧ x < dst + len then byte else mem x

/-- Memory, a map from addresses to bytes, as the `memset` calls among a
sequence of events leave it.  The other stores of a call are not in this map:
the bits a bitmap operation flips are the bitmaps of the state, which
`State.image` lays over it at the place where they are stored, and the
counters are variables of the state. -/
def memset_after (evs : List Event) (mem : Nat → Nat) : Nat → Nat :=
  evs.foldl (fun m e =>
    match e with
    | Event.memset dst byte len => memset_store dst byte len m
    | _ => m) mem

/-- The value `init_pool` gives the pointer `used_map` of a pool: the start of
the pool's region, which is the buffer it hands to `bitmap_create_in_buf`
(line 132), so that each bitmap is stored at the head of the region it
describes. -/
def used_map_addr (r l : Nat) : PoolId → Nat
  | PoolId.kernel => free_start
  | PoolId.user => (free_start + kernel_pages r l * PGSIZE) % WORD

/-- Modelled from the spec: the addresses at which the bits of a bitmap stored
in the buffer `buf` lie: the words that follow the two-word header, up to the
size `bitmap_buf_size` measures. -/
def in_map_storage (buf : Nat) (b : Bitmap) (x : Nat) : Prop :=
  buf + 8 ≤ x ∧ x < buf + bitmap_buf_size (bitmap_size b)

instance (buf : Nat) (b : Bitmap) (x : Nat) : Decidable (in_map_storage buf b x) := by
  unfold in_map_storage; infer_instance

/-- Modelled from the spec: byte `k` of the stored bits of a bitmap: bit `j` of
the byte is bit `8 * k + j` of the bitmap (32-bit little-endian words); at the
positions past the last bit of the bitmap the byte keeps the bits of `under`,
the byte the buffer held. -/
def store_byte (b : Bitmap) (k under : Nat) : Nat :=
  (List.range 8).foldl (fun acc j => acc + 2 ^ j *
    (if 8 * k + j < b.length then (if b.getD (8 * k + j) false then 1 else 0)
     else under / 2 ^ j % 2)) 0

/-- The memory that `palloc_init` manages, in a state, over the contents `mem`
that the `memset` calls have left: at the addresses where the bits of the
kernel pool's and of the user pool's bitmap are stored, the bytes are those of
the bitmaps of the state; elsewhere they are those of `mem`.  The variables of
`palloc.c` (`total_pages`, `free_pages`, the two pools with their locks) are
not bytes of this map: they are the other components of the state and the lock
events of its trace. -/
def State.image (r l : Nat) (s : State) (mem : Nat → Nat) (x : Nat) : Nat :=
  if in_map_storage (used_map_addr r l PoolId.kernel) s.kernel_pool.used_map x then
    store_byte s.kernel_pool.used_map (x - (used_map_addr r l PoolId.kernel + 8)) (mem x)
  else if in_map_storage (used_map_addr r l PoolId.user) s.user_pool.used_map x then
    store_byte s.user_pool.used_map (x - (used_map_addr r l PoolId.user + 8)) (mem x)
  else mem x

/-- The lock discipline on a sequence of events, given the locks held at its
start: a bitmap operation on a pool happens only while that pool's lock is
held, and a `memset` only while no lock is held. -/
def lock_disciplined (held : List PoolId) : List Event → Bool
  | [] => true
  | Event.lock_acquire p :: es => lock_disciplined (p :: held) es
  | Event.lock_release p :: es => lock_disciplined (held.erase p) es
  | Event.bitmap_op p :: es => decide (p ∈ held) && lock_disciplined held es
  | Event.memset _ _ _ :: es => held.isEmpty && lock_disciplined held es

/-- The locks a sequence of events operates on. -/
def locks_touched : List Event → List PoolId
  | [] => []
  | Event.lock_acquire p :: es => p :: locks_touched es
  | Event.lock_release p :: es => p :: locks_touched es
  | _ :: es => locks_touched es

/-- Two blocks share no page. -/
def blocks_disjoint (x y : Block) : Prop :=
  pg_no x.1 + x.2 ≤ pg_no y.1 ∨ pg_no y.1 + y.2 ≤ pg_no x.1

/-- A held block lies in one of the pools and all its bits are set. -/
def held_ok (s : State) (x : Block) : Prop :=
  1 ≤ x.2 ∧ pg_ofs x.1 = 0 ∧
  ∃ p : PoolId, page_from_pool (s.pool p) x.1 = true ∧
    is_run (s.pool p).used_map (page_index (s.pool p) x.1) x.2 true

/-- The layout of the two pools: page-aligned bases above address zero, the
kernel pool before the user pool, everything inside the address space. -/
def geometry (s : State) : Prop :=
  pg_ofs s.kernel_pool.base = 0 ∧ pg_ofs s.user_pool.base = 0 ∧
  0 < pg_no s.kernel_pool.base ∧
  pg_no s.kernel_pool.base + s.kernel_pool.capacity ≤ pg_no s.user_pool.base ∧
  pg_no s.user_pool.base + s.user_pool.capacity < 2 ^ 20 ∧
  s.kernel_pool.capacity + s.user_pool.capacity ≤ s.total_pages ∧
  s.total_pages < WORD

/-- The invariant of the reachable states. -/
def Inv (s : State) (h : List Block) : Prop :=
  geometry s ∧
  free_bits s.kernel_pool.used_map + free_bits s.user_pool.used_map + held_pages h
    = s.kernel_pool.capacity + s.user_pool.capacity ∧
  s.free_pages + held_pages h = s.total_pages ∧
  (∀ x ∈ h, held_ok s x) ∧
  h.Pairwise blocks_disjoint

/-! ## Lists and bitmaps -/

theorem find_range_some (p : Nat → Bool) : ∀ (n s i : Nat),
    (List.range' s n).find? p = some i ↔
      (s ≤ i ∧ i < s + n ∧ p i = true ∧ ∀ j, s ≤ j → j < i → p j = false) := by
  intro n
  induction n with
  | zero => intro s i; simp; intro h1 h2; omega
  | succ n ih =>
    intro s i
    rw [List.range'_succ, List.find?_cons]
    cases hps : p s with
    | true =>
      simp only [Option.some.injEq]
      constructor
      · intro h; subst h
        exact ⟨le_refl _, by omega, hps, fun j h1 h2 => by omega⟩
      · rintro ⟨h1, _, _, h4⟩
        by_contra hne
        have := h4 s (le_refl _) (by omega)
        rw [hps] at this; cases this
    | false =>
      simp only []
      rw [ih]
      constructor
      · rintro ⟨h1, h2, h3, h4⟩
        refine ⟨by omega, by omega, h3, ?_⟩
        intro j hj1 hj2
        by_cases hjs : j = s
        · subst hjs; exact hps
        · exact h4 j (by omega) hj2
      · rintro ⟨h1, h2, h3, h4⟩
        have hne : s ≠ i := by
          intro h; subst h; rw [hps] at h3; cases h3
        exact ⟨by omega, by omega, h3, fun j hj1 hj2 => h4 j (by omega) hj2⟩

theorem find_range_none (p : Nat → Bool) (n s : Nat) :
    (List.range' s n).find? p = none ↔ ∀ j, s ≤ j → j < s + n → p j = false := by
  rw [List.find?_eq_none]
  constructor
  · intro h j h1 h2
    have := h j (by rw [List.mem_range']; exact ⟨j - s, by omega, by omega⟩)
    simpa using this
  · intro h j hj
    rw [List.mem_range'] at hj
    obtain ⟨k, hk, rfl⟩ := hj
    have := h (s + 1 * k) (by omega) (by omega)
    simp only [one_mul] at this ⊢
    simp [this]

theorem bitmap_set_loop_length (b : Bitmap) (start : Nat) (value : Bool) (n : Nat) :
    (bitmap_set_loop b start value n).length = b.length := by
  induction n with
  | zero => rfl
  | succ n ih => simp [bitmap_set_loop, ih]

theorem bitmap_set_loop_getElem? (b : Bitmap) (start : Nat) (value : Bool) (n j : Nat) :
    (bitmap_set_loop b start value n)[j]? =
      if start ≤ j ∧ j < start + n ∧ j < b.length then some value else b[j]? := by
  induction n with
  | zero =>
    simp only [bitmap_set_loop]
    rw [if_neg (by omega)]
  | succ n ih =>
    simp only [bitmap_set_loop]
    rw [List.getElem?_set]
    by_cases h : start + n = j
    · subst h
      simp [bitmap_set_loop_length]
      by_cases h2 : start + n < b.length
      · simp [h2]
      · simp [h2]; omega
    · simp only [h, if_false, ih]
      by_cases h3 : start ≤ j ∧ j < start + n ∧ j < b.length
      · rw [if_pos h3, if_pos ⟨h3.1, by omega, h3.2.2⟩]
      · rw [if_neg h3, if_neg (by omega)]

theorem bitmap_contains_true_eq_false (b : Bitmap) (i cnt : Nat) (h : i + cnt ≤ b.length) :
    bitmap_contains b i cnt true = false ↔ is_run b i cnt false := by
  unfold bitmap_contains is_run
  rw [List.any_eq_false]
  constructor
  · intro hall
    refine ⟨h, fun k hk => ?_⟩
    have hk' := hall k (List.mem_range.mpr hk)
    have hlt : i + k < b.length := by omega
    rw [List.getD_eq_getElem?_getD, List.getElem?_eq_getElem hlt] at hk'
    rw [List.getElem?_eq_getElem hlt]
    cases hb : b[i + k] with
    | false => rfl
    | true => rw [hb] at hk'; simp at hk'
  · rintro ⟨_, hall⟩ k hk
    rw [List.mem_range] at hk
    rw [List.getD_eq_getElem?_getD, hall k hk]
    simp

theorem scan_pred_true (b : Bitmap) (cnt j : Nat) (h : j + cnt ≤ b.length) :
    (!bitmap_contains b j cnt (!false)) = true ↔ is_run b j cnt false := by
  rw [← bitmap_contains_true_eq_false b j cnt h]
  simp only [Bool.not_false]
  cases bitmap_contains b j cnt true <;> simp

theorem scan_pred_false (b : Bitmap) (cnt j : Nat) (h : j + cnt ≤ b.length) :
    (!bitmap_contains b j cnt (!false)) = false ↔ ¬ is_run b j cnt false := by
  rw [← scan_pred_true b cnt j h]
  cases (!bitmap_contains b j cnt (!false)) <;> simp

theorem bitmap_scan_eq_some (b : Bitmap) (cnt i : Nat) :
    bitmap_scan b 0 cnt false = some i ↔
      (is_run b i cnt false ∧ ∀ j, j < i → ¬ is_run b j cnt false) := by
  unfold bitmap_scan
  by_cases hc : cnt ≤ b.length
  · rw [if_pos hc, find_range_some]
    constructor
    · rintro ⟨_, h1, h2, h3⟩
      refine ⟨(scan_pred_true b cnt i (by omega)).mp h2, fun j hj => ?_⟩
      exact (scan_pred_false b cnt j (by omega)).mp (h3 j (Nat.zero_le _) hj)
    · rintro ⟨h1, h2⟩
      have hb := h1.1
      refine ⟨Nat.zero_le _, by omega, (scan_pred_true b cnt i hb).mpr h1, fun j _ hj => ?_⟩
      exact (scan_pred_false b cnt j (by omega)).mpr (h2 j hj)
  · rw [if_neg hc]
    constructor
    · intro h; cases h
    · rintro ⟨h1, _⟩
      have := h1.1
      omega

theorem bitmap_scan_eq_none (b : Bitmap) (cnt : Nat) :
    bitmap_scan b 0 cnt false = none ↔ ∀ j, ¬ is_run b j cnt false := by
  unfold bitmap_scan
  by_cases hc : cnt ≤ b.length
  · rw [if_pos hc, find_range_none]
    constructor
    · intro h j hrun
      have hb := hrun.1
      exact (scan_pred_false b cnt j hb).mp (h j (Nat.zero_le _) (by omega)) hrun
    · intro h j _ hj
      exact (scan_pred_false b cnt j (by omega)).mpr (h j)
  · rw [if_neg hc]
    simp only [true_iff]
    intro j hrun
    have := hrun.1
    omega

theorem count_false_set (l : List Bool) (j : Nat) (v : Bool) (h : j < l.length) :
    (l.set j v).count false + (if l[j]? = some false then 1 else 0)
      = l.count false + (if v = false then 1 else 0) := by
  induction l generalizing j with
  | nil => simp at h
  | cons x xs ih =>
    cases j with
    | zero =>
      cases x <;> cases v <;> simp [List.count_cons]
    | succ j =>
      have hj : j < xs.length := by simpa using h
      have := ih j hj
      simp only [List.set_cons_succ, List.count_cons, List.getElem?_cons_succ]
      omega

theorem bitmap_set_loop_getElem?_outside (b : Bitmap) (start : Nat) (value : Bool) (n j : Nat)
    (h : j < start ∨ start + n ≤ j) :
    (bitmap_set_loop b start value n)[j]? = b[j]? := by
  have hne : ¬ (start ≤ j ∧ j < start + n ∧ j < b.length) := by omega
  rw [bitmap_set_loop_getElem?, if_neg hne]

theorem is_run_mono (b : Bitmap) (i n : Nat) (v : Bool) (h : is_run b i (n + 1) v) :
    is_run b i n v :=
  ⟨by have := h.1; omega, fun k hk => h.2 k (by omega)⟩

theorem free_bits_set_used (b : Bitmap) (i n : Nat) (h : is_run b i n false) :
    free_bits (bitmap_set_loop b i true n) + n = free_bits b := by
  induction n with
  | zero => rfl
  | succ n ih =>
    have ih' := ih (is_run_mono b i n false h)
    have hlen : i + n < (bitmap_set_loop b i true n).length := by
      rw [bitmap_set_loop_length]; have := h.1; omega
    have hc := count_false_set (bitmap_set_loop b i true n) (i + n) true hlen
    rw [bitmap_set_loop_getElem?_outside _ _ _ _ _ (by omega), h.2 n (by omega)] at hc
    simp only [bitmap_set_loop, free_bits] at ih' ⊢
    simp at hc
    omega

theorem free_bits_set_free (b : Bitmap) (i n : Nat) (h : is_run b i n true) :
    free_bits (bitmap_set_loop b i false n) = free_bits b + n := by
  induction n with
  | zero => rfl
  | succ n ih =>
    have ih' := ih (is_run_mono b i n true h)
    have hlen : i + n < (bitmap_set_loop b i false n).length := by
      rw [bitmap_set_loop_length]; have := h.1; omega
    have hc := count_false_set (bitmap_set_loop b i false n) (i + n) false hlen
    rw [bitmap_set_loop_getElem?_outside _ _ _ _ _ (by omega), h.2 n (by omega)] at hc
    simp only [bitmap_set_loop, free_bits] at ih' ⊢
    simp at hc
    omega

theorem is_run_after_set (b : Bitmap) (i n : Nat) (v : Bool) (h : i + n ≤ b.length) :
    is_run (bitmap_set_loop b i v n) i n v := by
  refine ⟨by rw [bitmap_set_loop_length]; exact h, fun k hk => ?_⟩
  rw [bitmap_set_loop_getElem?, if_pos ⟨by omega, by omega, by omega⟩]

theorem set_loop_roundtrip (b : Bitmap) (i n : Nat) (h : is_run b i n false) :
    bitmap_set_loop (bitmap_set_loop b i true n) i false n = b := by
  apply List.ext_getElem?
  intro j
  rw [bitmap_set_loop_getElem?, bitmap_set_loop_length]
  by_cases hj : i ≤ j ∧ j < i + n ∧ j < b.length
  · rw [if_pos hj]
    have := h.2 (j - i) (by omega)
    rw [show i + (j - i) = j by omega] at this
    exact this.symm
  · rw [if_neg hj, bitmap_set_loop_getElem?, if_neg hj]

theorem is_run_outside_set (b : Bitmap) (i n j m : Nat) (v w : Bool)
    (hd : j + m ≤ i ∨ i + n ≤ j) (h : is_run b j m w) :
    is_run (bitmap_set_loop b i v n) j m w := by
  refine ⟨by rw [bitmap_set_loop_length]; exact h.1, fun k hk => ?_⟩
  rw [bitmap_set_loop_getElem?_outside _ _ _ _ _ (by omega)]
  exact h.2 k hk

theorem free_bits_le_length (b : Bitmap) : free_bits b ≤ b.length :=
  List.count_le_length _ _

theorem is_run_free_le_free_bits (b : Bitmap) (i n : Nat) (h : is_run b i n false) :
    n ≤ free_bits b := by
  have := free_bits_set_used b i n h
  omega

/-! ## Initialisation -/

theorem bitmap_create_in_buf_ok (N : Nat) (h : bm_pages N ≤ N) :
    bitmap_create_in_buf (N - bm_pages N) (bm_pages N * PGSIZE)
      = some (List.replicate (N - bm_pages N) false) := by
  unfold bitmap_create_in_buf
  rw [if_pos]
  unfold bm_pages bitmap_buf_size DIV_ROUND_UP PGSIZE at *
  omega

theorem init_pool_ret (p : PoolId) (base N : Nat) (s : State) (h : bm_pages N ≤ N) :
    init_pool p base N s = Outcome.ret () (s.set_pool p
      { used_map := List.replicate (N - bm_pages N) false,
        base := (base + bm_pages N * PGSIZE) % WORD }) := by
  unfold init_pool
  rw [if_neg (by omega)]
  simp only [bitmap_create_in_buf_ok N h]

theorem init_pool_abort (p : PoolId) (base N : Nat) (s : State) (h : N < bm_pages N) :
    init_pool p base N s = Outcome.abort Abort.panic s := by
  unfold init_pool
  rw [if_pos h]

theorem total_free_pages_lt (r : Nat) : total_free_pages r < WORD := by
  unfold total_free_pages WORD
  omega

theorem user_pages_le (r l : Nat) : user_pages r l ≤ total_free_pages r / 2 := by
  unfold user_pages
  split <;> omega

theorem user_pages_le_limit (r l : Nat) : user_pages r l ≤ l := by
  unfold user_pages
  split <;> omega

theorem kernel_pages_eq (r l : Nat) :
    kernel_pages r l = total_free_pages r - user_pages r l := by
  have h1 := total_free_pages_lt r
  have h2 := user_pages_le r l
  unfold kernel_pages size_sub
  unfold WORD at *
  omega

theorem seq_ret (s : State) (f : State → Outcome Unit) :
    Outcome.seq (Outcome.ret () s) f = f s := rfl

theorem seq_abort (k : Abort) (s : State) (f : State → Outcome Unit) :
    Outcome.seq (Outcome.abort k s) f = Outcome.abort k s := rfl

theorem set_pool_kernel (s : State) (q : Pool) :
    s.set_pool PoolId.kernel q =
      { total_pages := s.total_pages, free_pages := s.free_pages, kernel_pool := q,
        user_pool := s.user_pool, trace := s.trace } := rfl

theorem set_pool_user (s : State) (q : Pool) :
    s.set_pool PoolId.user q =
      { total_pages := s.total_pages, free_pages := s.free_pages,
        kernel_pool := s.kernel_pool, user_pool := q, trace := s.trace } := rfl

theorem palloc_init_of_fits (r l : Nat)
    (hk : bm_pages (kernel_pages r l) ≤ kernel_pages r l)
    (hu : bm_pages (user_pages r l) ≤ user_pages r l) :
    palloc_init r l = Outcome.ret () (init_state r l) := by
  unfold palloc_init
  rw [init_pool_ret _ _ _ _ hk, seq_ret, init_pool_ret _ _ _ _ hu, set_pool_kernel,
    set_pool_user]
  unfold init_state
  dsimp only [State.boot]

theorem palloc_init_not_fits (r l : Nat)
    (h : kernel_pages r l < bm_pages (kernel_pages r l) ∨
      user_pages r l < bm_pages (user_pages r l)) :
    ∃ s, palloc_init r l = Outcome.abort Abort.panic s := by
  unfold palloc_init
  by_cases hk : bm_pages (kernel_pages r l) ≤ kernel_pages r l
  · have hu : user_pages r l < bm_pages (user_pages r l) := by omega
    rw [init_pool_ret _ _ _ _ hk, seq_ret, init_pool_abort _ _ _ _ hu]
    exact ⟨_, rfl⟩
  · rw [init_pool_abort _ _ _ _ (Nat.lt_of_not_le hk), seq_abort]
    exact ⟨_, rfl⟩

theorem palloc_init_ret (r l : Nat) (s : State) (h : palloc_init r l = Outcome.ret () s) :
    bm_pages (kernel_pages r l) ≤ kernel_pages r l ∧
    bm_pages (user_pages r l) ≤ user_pages r l ∧ s = init_state r l := by
  by_cases hf : bm_pages (kernel_pages r l) ≤ kernel_pages r l ∧
      bm_pages (user_pages r l) ≤ user_pages r l
  · rw [palloc_init_of_fits r l hf.1 hf.2] at h
    injection h with _ h
    exact ⟨hf.1, hf.2, h.symm⟩
  · obtain ⟨t, ht⟩ := palloc_init_not_fits r l (by omega)
    rw [ht] at h
    cases h

theorem free_start_eq : free_start = 3222274048 := by
  unfold free_start ptov PHYS_BASE WORD
  norm_num

theorem total_free_pages_of_ram_ok (r : Nat) (h : ram_ok r) : total_free_pages r = r - 256 := by
  unfold ram_ok PGSIZE at h
  unfold total_free_pages free_end
  rw [free_start_eq]
  unfold ptov PHYS_BASE WORD PGSIZE
  have h1 : (r * 4096 % 2 ^ 32 + 3221225472) % 2 ^ 32 = r * 4096 + 3221225472 := by omega
  rw [h1]
  have h2 : ((r * 4096 + 3221225472 : Nat) : Int) - ((3222274048 : Nat) : Int)
      = (((r - 256) * 4096 : Nat) : Int) := by omega
  rw [h2, Int.tdiv_eq_ediv (by omega) (by norm_num)]
  omega

theorem free_bits_replicate (n : Nat) : free_bits (List.replicate n false) = n := by
  simp [free_bits]

theorem geometry_init (r l : Nat) (h : ram_ok r)
    (hk : bm_pages (kernel_pages r l) ≤ kernel_pages r l)
    (hu : bm_pages (user_pages r l) ≤ user_pages r l) :
    geometry (init_state r l) := by
  have hT := total_free_pages_of_ram_ok r h
  have hK := kernel_pages_eq r l
  have hU := user_pages_le r l
  unfold ram_ok PGSIZE at h
  unfold geometry init_state Pool.capacity bitmap_size pg_ofs pg_no
  simp only [List.length_replicate]
  rw [free_start_eq]
  unfold WORD PGSIZE
  generalize bm_pages (kernel_pages r l) = bk at *
  generalize bm_pages (user_pages r l) = bu at *
  generalize kernel_pages r l = K at *
  generalize user_pages r l = U at *
  generalize total_free_pages r = T at *
  omega

theorem inv_init (r l : Nat) (s : State) (h : ram_ok r)
    (hi : palloc_init r l = Outcome.ret () s) : Inv s [] := by
  obtain ⟨hk, hu, rfl⟩ := palloc_init_ret r l s hi
  refine ⟨geometry_init r l h hk hu, ?_, ?_, ?_, List.Pairwise.nil⟩
  · simp [init_state, free_bits_replicate, held_pages, Pool.capacity, bitmap_size]
  · simp [init_state, held_pages]
  · intro x hx; cases hx

/-! ## What one call does -/

theorem pool_other_ne (p : PoolId) : p.other ≠ p := by
  cases p <;> simp [PoolId.other]

theorem get_zero (flags : Nat) (s : State) :
    palloc_get_multiple flags 0 s = Outcome.ret 0 s := by
  unfold palloc_get_multiple
  simp

theorem get_found (flags cnt i : Nat) (s : State) (hc : cnt ≠ 0)
    (h : bitmap_scan (s.pool (select_pool flags)).used_map 0 cnt false = some i) :
    ∃ s', palloc_get_multiple flags cnt s
        = Outcome.ret (((s.pool (select_pool flags)).base + PGSIZE * i) % WORD) s' ∧
      s'.total_pages = s.total_pages ∧
      s'.free_pages = size_sub s.free_pages cnt ∧
      s'.pool (select_pool flags) =
        { used_map := bitmap_set_loop (s.pool (select_pool flags)).used_map i true cnt,
          base := (s.pool (select_pool flags)).base } ∧
      s'.pool (select_pool flags).other = s.pool (select_pool flags).other := by
  unfold palloc_get_multiple
  simp only [if_neg hc]
  cases hp : select_pool flags <;> rw [hp] at h <;>
    simp only [State.pool, State.log, State.set_pool, State.set_free_pages, Pool.set_used_map, PoolId.other] at h ⊢ <;>
    simp only [bitmap_scan_and_flip, h, Bool.not_false] <;>
    cases has_flag flags PAL_ZERO <;>
    exact ⟨_, rfl, rfl, rfl, rfl, rfl⟩

theorem get_not_found (flags cnt : Nat) (s : State) (hc : cnt ≠ 0)
    (h : bitmap_scan (s.pool (select_pool flags)).used_map 0 cnt false = none) :
    ∃ s', palloc_get_multiple flags cnt s
        = (if has_flag flags PAL_ASSERT then Outcome.abort Abort.panic s' else Outcome.ret 0 s') ∧
      s'.total_pages = s.total_pages ∧
      s'.free_pages = s.free_pages ∧
      s'.kernel_pool = s.kernel_pool ∧
      s'.user_pool = s.user_pool := by
  unfold palloc_get_multiple
  simp only [if_neg hc]
  cases hp : select_pool flags <;> rw [hp] at h <;>
    simp only [State.pool, State.log, State.set_pool, State.set_free_pages, Pool.set_used_map] at h ⊢ <;>
    simp only [bitmap_scan_and_flip, h] <;>
    exact ⟨_, rfl, rfl, rfl, rfl, rfl⟩

theorem free_unaligned (a cnt : Nat) (s : State) (h : pg_ofs a ≠ 0) :
    palloc_free_multiple a cnt s = Outcome.abort Abort.assertion s := by
  unfold palloc_free_multiple
  rw [if_pos h]

theorem free_degenerate (a cnt : Nat) (s : State) (ha : pg_ofs a = 0) (h : a = 0 ∨ cnt = 0) :
    palloc_free_multiple a cnt s = Outcome.ret () s := by
  unfold palloc_free_multiple
  rw [if_neg (by simp [ha]), if_pos h]

theorem free_unowned (a cnt : Nat) (s : State) (ha : pg_ofs a = 0) (ha0 : a ≠ 0)
    (hc : cnt ≠ 0) (ho : owner_pool s a = none) :
    palloc_free_multiple a cnt s = Outcome.abort Abort.not_reached s := by
  unfold palloc_free_multiple
  rw [if_neg (by simp [ha]), if_neg (by simp [ha0, hc])]
  simp only [ho]

theorem free_owned (a cnt : Nat) (s : State) (p : PoolId) (ha : pg_ofs a = 0) (ha0 : a ≠ 0)
    (hc : cnt ≠ 0) (ho : owner_pool s a = some p)
    (hr : size_sub (pg_no a) (pg_no (s.pool p).base) + cnt ≤ (s.pool p).used_map.length) :
    ∃ s', palloc_free_multiple a cnt s = Outcome.ret () s' ∧
      s'.total_pages = s.total_pages ∧
      s'.free_pages = size_add s.free_pages cnt ∧
      s'.pool p =
        { used_map := bitmap_set_loop (s.pool p).used_map
            (size_sub (pg_no a) (pg_no (s.pool p).base)) false cnt,
          base := (s.pool p).base } ∧
      s'.pool p.other = s.pool p.other := by
  unfold palloc_free_multiple
  rw [if_neg (by simp [ha]), if_neg (by simp [ha0, hc])]
  simp only [ho]
  cases p <;>
    simp only [State.pool, State.log, State.set_pool, State.set_free_pages, Pool.set_used_map, PoolId.other] at hr ⊢ <;>
    simp only [bitmap_set_multiple] <;>
    rw [if_pos ⟨by omega, hr⟩] <;>
    exact ⟨_, rfl, rfl, rfl, rfl, rfl⟩

/-! ## Consequences of the layout -/

theorem geometry_pool (s : State) (g : geometry s) (p : PoolId) :
    pg_ofs (s.pool p).base = 0 ∧ 0 < pg_no (s.pool p).base ∧
      pg_no (s.pool p).base + (s.pool p).used_map.length < 2 ^ 20 := by
  obtain ⟨g1, g2, g3, g4, g5, _, _⟩ := g
  unfold Pool.capacity bitmap_size at g4 g5
  cases p <;> simp only [State.pool] <;> refine ⟨by assumption, ?_, ?_⟩ <;> omega

theorem page_from_pool_iff (s : State) (g : geometry s) (p : PoolId) (a : Nat) :
    page_from_pool (s.pool p) a = true ↔
      (pg_no (s.pool p).base ≤ pg_no a ∧
        pg_no a < pg_no (s.pool p).base + (s.pool p).used_map.length) := by
  obtain ⟨_, _, h3⟩ := geometry_pool s g p
  unfold page_from_pool size_add bitmap_size WORD
  simp only [Bool.and_eq_true, decide_eq_true_eq, ge_iff_le]
  rw [Nat.mod_eq_of_lt (by omega)]

theorem page_from_pool_other (s : State) (g : geometry s) (p : PoolId) (a : Nat)
    (h : page_from_pool (s.pool p) a = true) : page_from_pool (s.pool p.other) a = false := by
  rw [page_from_pool_iff s g] at h
  rw [← Bool.not_eq_true, page_from_pool_iff s g]
  obtain ⟨_, _, _, g4, _, _, _⟩ := g
  unfold Pool.capacity bitmap_size at g4
  cases p <;> simp only [State.pool, PoolId.other] at h ⊢ <;> omega

theorem owner_pool_of_member (s : State) (g : geometry s) (p : PoolId) (a : Nat)
    (h : page_from_pool (s.pool p) a = true) : owner_pool s a = some p := by
  have ho := page_from_pool_other s g p a h
  unfold owner_pool
  cases p <;> simp only [State.pool, PoolId.other] at h ho
  · rw [if_pos h]
  · rw [if_neg (by simp [ho]), if_pos h]

theorem alloc_addr (base len i cnt : Nat) (hb : pg_ofs base = 0)
    (hl : pg_no base + len < 2 ^ 20) (hi : i + cnt ≤ len) (hc : 1 ≤ cnt) :
    (base + PGSIZE * i) % WORD = base + PGSIZE * i ∧
      pg_ofs ((base + PGSIZE * i) % WORD) = 0 ∧
      pg_no ((base + PGSIZE * i) % WORD) = pg_no base + i := by
  unfold pg_ofs pg_no PGSIZE WORD at *
  omega

theorem size_sub_eq (a b : Nat) (h : b ≤ a) (ha : a < 2 ^ 32) : size_sub a b = a - b := by
  unfold size_sub WORD
  omega

theorem size_add_eq (a b : Nat) (h : a + b < 2 ^ 32) : size_add a b = a + b := by
  unfold size_add WORD
  omega

/-! ## Held blocks -/

theorem held_pages_cons (x : Block) (h : List Block) :
    held_pages (x :: h) = x.2 + held_pages h := by
  simp [held_pages]

theorem held_pages_erase (h : List Block) (x : Block) (hx : x ∈ h) :
    held_pages (h.erase x) + x.2 = held_pages h := by
  induction h with
  | nil => cases hx
  | cons y t ih =>
    by_cases hxy : y = x
    · subst hxy
      rw [List.erase_cons_head, held_pages_cons]; omega
    · have hne : ¬ (y == x) = true := by simpa using hxy
      rw [List.erase_cons_tail hne, held_pages_cons, held_pages_cons]
      have hx' : x ∈ t := by
        rcases List.mem_cons.mp hx with h1 | h1
        · exact absurd h1.symm hxy
        · exact h1
      have := ih hx'
      omega

theorem blocks_disjoint_symm (x y : Block) (h : blocks_disjoint x y) : blocks_disjoint y x :=
  Or.symm h

theorem disjoint_of_mem_erase (h : List Block) (x y : Block)
    (hp : h.Pairwise blocks_disjoint) (hx : x ∈ h) (hy : y ∈ h.erase x) :
    blocks_disjoint x y := by
  induction h with
  | nil => cases hx
  | cons z t ih =>
    rw [List.pairwise_cons] at hp
    by_cases hzx : z = x
    · subst hzx
      rw [List.erase_cons_head] at hy
      exact hp.1 y hy
    · have hne : ¬ (z == x) = true := by simpa using hzx
      rw [List.erase_cons_tail hne] at hy
      have hx' : x ∈ t := by
        rcases List.mem_cons.mp hx with h1 | h1
        · exact absurd h1.symm hzx
        · exact h1
      rcases List.mem_cons.mp hy with h1 | h1
      · subst h1
        exact blocks_disjoint_symm _ _ (hp.1 x hx')
      · exact ih hp.2 hx' h1

/-! ## The invariant is preserved -/

theorem inv_congr (s s' : State) (h : List Block)
    (h1 : s'.total_pages = s.total_pages) (h2 : s'.free_pages = s.free_pages)
    (h3 : s'.kernel_pool = s.kernel_pool) (h4 : s'.user_pool = s.user_pool)
    (hinv : Inv s h) : Inv s' h := by
  cases s; cases s'
  simp only at h1 h2 h3 h4
  subst h1 h2 h3 h4
  exact hinv

theorem pool_cases (p q : PoolId) : q = p ∨ q = p.other := by
  cases p <;> cases q <;> simp [PoolId.other]

theorem free_bits_pools (s : State) (p : PoolId) :
    free_bits s.kernel_pool.used_map + free_bits s.user_pool.used_map
      = free_bits (s.pool p).used_map + free_bits (s.pool p.other).used_map := by
  cases p
  · simp only [State.pool, PoolId.other]
  · simp only [State.pool, PoolId.other]; omega

theorem capacity_pools (s : State) (p : PoolId) :
    s.kernel_pool.capacity + s.user_pool.capacity
      = (s.pool p).used_map.length + (s.pool p.other).used_map.length := by
  unfold Pool.capacity bitmap_size
  cases p
  · simp only [State.pool, PoolId.other]
  · simp only [State.pool, PoolId.other]; omega

theorem geometry_update (s s' : State) (p : PoolId) (m : Bitmap)
    (g : geometry s) (ht : s'.total_pages = s.total_pages)
    (hp : s'.pool p = { used_map := m, base := (s.pool p).base })
    (hm : m.length = (s.pool p).used_map.length)
    (ho : s'.pool p.other = s.pool p.other) : geometry s' := by
  unfold geometry Pool.capacity bitmap_size at *
  cases p <;> simp only [State.pool, PoolId.other] at hp ho hm <;>
    rw [hp, ho, ht] <;> simp only [hm] <;> exact g

theorem page_from_pool_congr (p q : Pool) (a : Nat) (hb : q.base = p.base)
    (hl : q.used_map.length = p.used_map.length) :
    page_from_pool q a = page_from_pool p a := by
  unfold page_from_pool bitmap_size
  rw [hb, hl]

theorem held_ok_update (s s' : State) (p : PoolId) (i n : Nat) (v : Bool) (g : geometry s)
    (hp : s'.pool p =
      { used_map := bitmap_set_loop (s.pool p).used_map i v n, base := (s.pool p).base })
    (ho : s'.pool p.other = s.pool p.other) (x : Block) (hx : held_ok s x)
    (hd : pg_no x.1 + x.2 ≤ pg_no (s.pool p).base + i ∨
      pg_no (s.pool p).base + i + n ≤ pg_no x.1) : held_ok s' x := by
  obtain ⟨h1, h2, q, h3, h4⟩ := hx
  refine ⟨h1, h2, q, ?_⟩
  rcases pool_cases p q with rfl | rfl
  · have hmem := (page_from_pool_iff s g q x.1).mp h3
    rw [hp]
    constructor
    · have hcg := page_from_pool_congr (s.pool q)
        { used_map := bitmap_set_loop (s.pool q).used_map i v n, base := (s.pool q).base }
        x.1 rfl (bitmap_set_loop_length _ _ _ _)
      rw [hcg]
      exact h3
    · unfold page_index at h4 ⊢
      simp only
      apply is_run_outside_set _ _ _ _ _ _ _ _ h4
      omega
  · rw [ho]; exact ⟨h3, h4⟩

theorem held_disjoint_free_run (s : State) (g : geometry s) (x : Block) (hx : held_ok s x)
    (p : PoolId) (i n : Nat) (hn : 1 ≤ n) (hrun : is_run (s.pool p).used_map i n false) :
    pg_no x.1 + x.2 ≤ pg_no (s.pool p).base + i ∨
      pg_no (s.pool p).base + i + n ≤ pg_no x.1 := by
  obtain ⟨h1, _, q, h3, h4⟩ := hx
  have hmem := (page_from_pool_iff s g q x.1).mp h3
  unfold page_index at h4
  rcases pool_cases p q with rfl | rfl
  · by_contra hcon
    by_cases hle : pg_no x.1 - pg_no (s.pool q).base ≤ i
    · have e1 := h4.2 (i - (pg_no x.1 - pg_no (s.pool q).base)) (by omega)
      have e2 := hrun.2 0 hn
      rw [show pg_no x.1 - pg_no (s.pool q).base + (i - (pg_no x.1 - pg_no (s.pool q).base))
        = i + 0 by omega, e2] at e1
      cases e1
    · have e1 := h4.2 0 h1
      have e2 := hrun.2 (pg_no x.1 - pg_no (s.pool q).base - i) (by omega)
      rw [show i + (pg_no x.1 - pg_no (s.pool q).base - i)
        = pg_no x.1 - pg_no (s.pool q).base + 0 by omega, e1] at e2
      cases e2
  · have hx2 := h4.1
    have hr := hrun.1
    obtain ⟨_, _, _, g4, _, _, _⟩ := g
    unfold Pool.capacity bitmap_size at g4
    cases p <;> simp only [State.pool, PoolId.other] at hmem hx2 hr ⊢ <;> omega

theorem inv_free_pages_bound (s : State) (h : List Block) (hinv : Inv s h) (p : PoolId) :
    free_bits (s.pool p).used_map ≤ s.free_pages ∧ s.free_pages ≤ s.total_pages ∧
      s.total_pages < 2 ^ 32 := by
  obtain ⟨g, hc, hf, _, _⟩ := hinv
  obtain ⟨_, _, _, _, _, g6, g7⟩ := g
  unfold WORD at g7
  have := free_bits_pools s p
  refine ⟨?_, ?_, g7⟩ <;> omega

theorem inv_get_found (s s' : State) (h : List Block) (p : PoolId) (i cnt : Nat)
    (hinv : Inv s h) (hc : 1 ≤ cnt) (hrun : is_run (s.pool p).used_map i cnt false)
    (ht : s'.total_pages = s.total_pages)
    (hf : s'.free_pages = size_sub s.free_pages cnt)
    (hp : s'.pool p =
      { used_map := bitmap_set_loop (s.pool p).used_map i true cnt, base := (s.pool p).base })
    (ho : s'.pool p.other = s.pool p.other) :
    Inv s' ((((s.pool p).base + PGSIZE * i) % WORD, cnt) :: h) := by
  have hb := inv_free_pages_bound s h hinv p
  obtain ⟨g, hcnt, hfp, hheld, hpw⟩ := hinv
  obtain ⟨gp1, gp2, gp3⟩ := geometry_pool s g p
  obtain ⟨a1, a2, a3⟩ := alloc_addr (s.pool p).base (s.pool p).used_map.length i cnt
    gp1 gp3 hrun.1 hc
  have hle := is_run_free_le_free_bits _ _ _ hrun
  have g' : geometry s' :=
    geometry_update s s' p _ g ht hp (bitmap_set_loop_length _ _ _ _) ho
  refine ⟨g', ?_, ?_, ?_, ?_⟩
  · rw [free_bits_pools s' p, capacity_pools s' p, hp, ho, held_pages_cons]
    simp only [bitmap_set_loop_length]
    rw [free_bits_pools s p, capacity_pools s p] at hcnt
    have := free_bits_set_used _ _ _ hrun
    omega
  · rw [hf, ht, held_pages_cons, size_sub_eq _ _ (by omega) (by omega)]
    simp only
    omega
  · intro x hx
    rcases List.mem_cons.mp hx with rfl | hx
    · refine ⟨hc, a2, p, ?_, ?_⟩
      · rw [page_from_pool_iff s' g', hp]
        simp only [bitmap_set_loop_length]
        have := hrun.1
        omega
      · rw [hp]
        unfold page_index
        simp only
        rw [a3, Nat.add_sub_cancel_left]
        exact is_run_after_set _ _ _ _ hrun.1
    · exact held_ok_update s s' p i cnt true g hp ho x (hheld x hx)
        (held_disjoint_free_run s g x (hheld x hx) p i cnt hc hrun)
  · rw [List.pairwise_cons]
    refine ⟨fun x hx => ?_, hpw⟩
    have := held_disjoint_free_run s g x (hheld x hx) p i cnt hc hrun
    unfold blocks_disjoint
    simp only
    rw [a3]
    omega

theorem get_ret_cases (flags cnt a : Nat) (s s' : State)
    (hget : palloc_get_multiple flags cnt s = Outcome.ret a s') :
    (a = 0 ∧ s'.total_pages = s.total_pages ∧ s'.free_pages = s.free_pages ∧
      s'.kernel_pool = s.kernel_pool ∧ s'.user_pool = s.user_pool ∧
      (cnt = 0 ∨ bitmap_scan (s.pool (select_pool flags)).used_map 0 cnt false = none)) ∨
    (∃ i, cnt ≠ 0 ∧ bitmap_scan (s.pool (select_pool flags)).used_map 0 cnt false = some i ∧
      a = ((s.pool (select_pool flags)).base + PGSIZE * i) % WORD ∧
      s'.total_pages = s.total_pages ∧
      s'.free_pages = size_sub s.free_pages cnt ∧
      s'.pool (select_pool flags) =
        { used_map := bitmap_set_loop (s.pool (select_pool flags)).used_map i true cnt,
          base := (s.pool (select_pool flags)).base } ∧
      s'.pool (select_pool flags).other = s.pool (select_pool flags).other) := by
  by_cases hc : cnt = 0
  · subst hc
    rw [get_zero] at hget
    injection hget with h1 h2
    subst h1 h2
    exact Or.inl ⟨rfl, rfl, rfl, rfl, rfl, Or.inl rfl⟩
  · cases hs : bitmap_scan (s.pool (select_pool flags)).used_map 0 cnt false with
    | none =>
      obtain ⟨t, h1, h2, h3, h4, h5⟩ := get_not_found flags cnt s hc hs
      rw [h1] at hget
      split at hget
      · cases hget
      · injection hget with e1 e2
        subst e1 e2
        exact Or.inl ⟨rfl, h2, h3, h4, h5, Or.inr rfl⟩
    | some i =>
      obtain ⟨t, h1, h2, h3, h4, h5⟩ := get_found flags cnt i s hc hs
      rw [h1] at hget
      injection hget with e1 e2
      subst e1 e2
      exact Or.inr ⟨i, hc, rfl, rfl, h2, h3, h4, h5⟩

theorem get_found_addr_ne_zero (s : State) (g : geometry s) (p : PoolId) (i cnt : Nat)
    (hc : 1 ≤ cnt) (hrun : is_run (s.pool p).used_map i cnt false) :
    ((s.pool p).base + PGSIZE * i) % WORD ≠ 0 := by
  obtain ⟨gp1, gp2, gp3⟩ := geometry_pool s g p
  obtain ⟨a1, a2, a3⟩ := alloc_addr (s.pool p).base (s.pool p).used_map.length i cnt
    gp1 gp3 hrun.1 hc
  intro h0
  rw [h0] at a3
  unfold pg_no PGSIZE at a3 gp2
  omega

theorem inv_get (s s' : State) (h : List Block) (flags cnt a : Nat) (hinv : Inv s h)
    (hget : palloc_get_multiple flags cnt s = Outcome.ret a s') :
    Inv s' (if a = 0 then h else (a, cnt) :: h) := by
  rcases get_ret_cases flags cnt a s s' hget with
    ⟨rfl, h1, h2, h3, h4, _⟩ | ⟨i, hc, hs, ha, h1, h2, h3, h4⟩
  · rw [if_pos rfl]
    exact inv_congr s s' h h1 h2 h3 h4 hinv
  · have hrun := ((bitmap_scan_eq_some _ _ _).mp hs).1
    have hc1 : 1 ≤ cnt := by omega
    have hne := get_found_addr_ne_zero s hinv.1 (select_pool flags) i cnt hc1 hrun
    rw [← ha] at hne
    rw [if_neg hne, ha]
    exact inv_get_found s s' h (select_pool flags) i cnt hinv hc1 hrun h1 h2 h3 h4

theorem free_held (s : State) (g : geometry s) (a n : Nat) (hx : held_ok s (a, n)) :
    ∃ p s', page_from_pool (s.pool p) a = true ∧
      is_run (s.pool p).used_map (page_index (s.pool p) a) n true ∧
      palloc_free_multiple a n s = Outcome.ret () s' ∧
      s'.total_pages = s.total_pages ∧
      s'.free_pages = size_add s.free_pages n ∧
      s'.pool p =
        { used_map := bitmap_set_loop (s.pool p).used_map (page_index (s.pool p) a) false n,
          base := (s.pool p).base } ∧
      s'.pool p.other = s.pool p.other := by
  obtain ⟨h1, h2, p, h3, h4⟩ := hx
  simp only at h1 h2 h3 h4
  have hmem := (page_from_pool_iff s g p a).mp h3
  obtain ⟨gp1, gp2, gp3⟩ := geometry_pool s g p
  have ha0 : a ≠ 0 := by
    intro h0
    rw [h0] at hmem
    unfold pg_no PGSIZE at hmem gp2
    omega
  have hidx : size_sub (pg_no a) (pg_no (s.pool p).base) = page_index (s.pool p) a := by
    unfold page_index
    exact size_sub_eq _ _ hmem.1 (by omega)
  have ho := owner_pool_of_member s g p a h3
  obtain ⟨s', e1, e2, e3, e4, e5⟩ := free_owned a n s p h2 ha0 (by omega) ho
    (by rw [hidx]; exact h4.1)
  rw [hidx] at e4
  exact ⟨p, s', h3, h4, e1, e2, e3, e4, e5⟩

theorem inv_free_step (s s' : State) (h : List Block) (a n : Nat) (p : PoolId)
    (hinv : Inv s h) (hx : (a, n) ∈ h)
    (h3 : page_from_pool (s.pool p) a = true)
    (h4 : is_run (s.pool p).used_map (page_index (s.pool p) a) n true)
    (ht : s'.total_pages = s.total_pages)
    (hf : s'.free_pages = size_add s.free_pages n)
    (hp : s'.pool p =
      { used_map := bitmap_set_loop (s.pool p).used_map (page_index (s.pool p) a) false n,
        base := (s.pool p).base })
    (ho : s'.pool p.other = s.pool p.other) :
    Inv s' (h.erase (a, n)) := by
  obtain ⟨g, hcnt, hfp, hheld, hpw⟩ := hinv
  have gg := g
  have hmem := (page_from_pool_iff s g p a).mp h3
  have g' : geometry s' :=
    geometry_update s s' p _ g ht hp (bitmap_set_loop_length _ _ _ _) ho
  have her := held_pages_erase h (a, n) hx
  simp only at her
  obtain ⟨_, _, _, _, _, g6, g7⟩ := g
  unfold WORD at g7
  refine ⟨g', ?_, ?_, ?_, ?_⟩
  · rw [free_bits_pools s' p, capacity_pools s' p, hp, ho]
    simp only [bitmap_set_loop_length]
    rw [free_bits_pools s p, capacity_pools s p] at hcnt
    have := free_bits_set_free _ _ _ h4
    omega
  · rw [hf, ht, size_add_eq _ _ (by omega)]
    omega
  · intro y hy
    have hyh : y ∈ h := List.mem_of_mem_erase hy
    have hd := disjoint_of_mem_erase h (a, n) y hpw hx hy
    unfold blocks_disjoint at hd
    simp only at hd
    apply held_ok_update s s' p (page_index (s.pool p) a) n false
      gg hp ho y (hheld y hyh)
    unfold page_index
    omega
  · exact List.Pairwise.sublist (List.erase_sublist _ _) hpw

theorem inv_free (s s' : State) (h : List Block) (a n : Nat) (hinv : Inv s h)
    (hx : (a, n) ∈ h) (hfree : palloc_free_multiple a n s = Outcome.ret () s') :
    Inv s' (h.erase (a, n)) := by
  obtain ⟨p, t, h3, h4, e1, e2, e3, e4, e5⟩ := free_held s hinv.1 a n (hinv.2.2.2.1 _ hx)
  rw [e1] at hfree
  injection hfree with _ hst
  subst hst
  exact inv_free_step s t h a n p hinv hx h3 h4 e2 e3 e4 e5

theorem reachable_inv (r l : Nat) (s : State) (h : List Block) (hr : Reachable r l s h) :
    Inv s h := by
  induction hr with
  | init s hram hi => exact inv_init r l s hram hi
  | get s s' h flags cnt a _ hget ih => exact inv_get s s' h flags cnt a ih hget
  | free s s' h a cnt _ hmem hfree ih => exact inv_free s s' h a cnt ih hmem hfree

/-! ## The layout never changes -/

theorem same_layout_refl (s : State) : same_layout s s := ⟨rfl, rfl, rfl, rfl, rfl⟩

theorem same_layout_congr (s0 s s' : State) (hl : same_layout s0 s)
    (h1 : s'.total_pages = s.total_pages)
    (h3 : s'.kernel_pool = s.kernel_pool) (h4 : s'.user_pool = s.user_pool) :
    same_layout s0 s' := by
  unfold same_layout at *
  rw [h1, h3, h4]
  exact hl

theorem same_layout_update (s0 s s' : State) (p : PoolId) (m : Bitmap)
    (hl : same_layout s0 s) (ht : s'.total_pages = s.total_pages)
    (hp : s'.pool p = { used_map := m, base := (s.pool p).base })
    (hm : m.length = (s.pool p).used_map.length)
    (ho : s'.pool p.other = s.pool p.other) : same_layout s0 s' := by
  unfold same_layout Pool.capacity bitmap_size at *
  cases p <;> simp only [State.pool, PoolId.other] at hp ho hm <;>
    rw [hp, ho, ht] <;> simp only [hm] <;> exact hl

theorem reachable_layout (r l : Nat) (s : State) (h : List Block) (hr : Reachable r l s h) :
    same_layout (init_state r l) s := by
  induction hr with
  | init s _ hi =>
    obtain ⟨_, _, rfl⟩ := palloc_init_ret r l s hi
    exact same_layout_refl _
  | get s s' h flags cnt a _ hget ih =>
    rcases get_ret_cases flags cnt a s s' hget with
      ⟨_, h1, _, h3, h4, _⟩ | ⟨i, _, _, _, h1, _, h3, h4⟩
    · exact same_layout_congr _ s s' ih h1 h3 h4
    · exact same_layout_update _ s s' _ _ ih h1 h3 (bitmap_set_loop_length _ _ _ _) h4
  | free s s' h a cnt hprev hmem hfree ih =>
    have hinv := reachable_inv r l s h hprev
    obtain ⟨p, t, _, _, e1, e2, _, e4, e5⟩ := free_held s hinv.1 a cnt (hinv.2.2.2.1 _ hmem)
    rw [e1] at hfree
    injection hfree with _ hst
    subst hst
    exact same_layout_update _ s t p _ ih e2 e4 (bitmap_set_loop_length _ _ _ _) e5

theorem reachable_fits (r l : Nat) (s : State) (h : List Block) (hr : Reachable r l s h) :
    ram_ok r ∧ bm_pages (kernel_pages r l) ≤ kernel_pages r l ∧
      bm_pages (user_pages r l) ≤ user_pages r l := by
  induction hr with
  | init s hram hi =>
    obtain ⟨hk, hu, _⟩ := palloc_init_ret r l s hi
    exact ⟨hram, hk, hu⟩
  | get _ _ _ _ _ _ _ _ ih => exact ih
  | free _ _ _ _ _ _ _ _ ih => exact ih

theorem init_layout (r l : Nat) (h : ram_ok r)
    (hk : bm_pages (kernel_pages r l) ≤ kernel_pages r l)
    (hu : bm_pages (user_pages r l) ≤ user_pages r l) :
    (init_state r l).kernel_pool.base = free_start + bm_pages (kernel_pages r l) * PGSIZE ∧
    (init_state r l).user_pool.base
      = free_start + kernel_pages r l * PGSIZE + bm_pages (user_pages r l) * PGSIZE ∧
    (init_state r l).kernel_pool.capacity = kernel_pages r l - bm_pages (kernel_pages r l) ∧
    (init_state r l).user_pool.capacity = user_pages r l - bm_pages (user_pages r l) ∧
    (init_state r l).total_pages = total_free_pages r ∧
    kernel_pages r l + user_pages r l = total_free_pages r ∧
    total_free_pages r = r - 256 := by
  have hT := total_free_pages_of_ram_ok r h
  have hK := kernel_pages_eq r l
  have hU := user_pages_le r l
  unfold ram_ok PGSIZE at h
  unfold init_state Pool.capacity bitmap_size
  simp only [List.length_replicate]
  rw [free_start_eq]
  unfold WORD PGSIZE
  generalize bm_pages (kernel_pages r l) = bk at *
  generalize bm_pages (user_pages r l) = bu at *
  generalize kernel_pages r l = K at *
  generalize user_pages r l = U at *
  generalize total_free_pages r = T at *
  exact ⟨by omega, by omega, trivial, trivial, trivial, by omega, by omega⟩

/-! ## A concrete machine -/

theorem ram_ok_demo : ram_ok 356 := by
  unfold ram_ok PGSIZE
  omega

theorem total_free_pages_demo : total_free_pages 356 = 100 :=
  total_free_pages_of_ram_ok 356 ram_ok_demo

theorem user_pages_demo : user_pages 356 1000 = 50 := by
  unfold user_pages
  rw [total_free_pages_demo]
  rfl

theorem kernel_pages_demo : kernel_pages 356 1000 = 50 := by
  rw [kernel_pages_eq, total_free_pages_demo, user_pages_demo]

theorem bm_pages_demo : bm_pages 50 = 1 := by
  unfold bm_pages bitmap_buf_size DIV_ROUND_UP PGSIZE
  rfl

theorem init_state_demo : init_state 356 1000 = demo_state := by
  unfold init_state
  rw [kernel_pages_demo, user_pages_demo, total_free_pages_demo, bm_pages_demo, free_start_eq]
  unfold demo_state PGSIZE WORD
  rfl

theorem palloc_init_demo : palloc_init 356 1000 = Outcome.ret () demo_state := by
  rw [← init_state_demo]
  apply palloc_init_of_fits
  · rw [kernel_pages_demo, bm_pages_demo]; omega
  · rw [user_pages_demo, bm_pages_demo]; omega

theorem reachable_demo : Reachable 356 1000 demo_state [] :=
  Reachable.init demo_state ram_ok_demo palloc_init_demo

/-! ## Capacity partition (C1) -/

/-- C1, as stated, fails: on a machine with 100 pages above the first megabyte
and a user limit of 1000, `palloc_init` completes with `total_pages = 100` while
the two capacities add up to 98, one page of each pool holding its bitmap. -/
theorem c1_capacities_below_total :
    palloc_init 356 1000 = Outcome.ret () demo_state ∧
    total_free_pages 356 = 100 ∧
    demo_state.total_pages = 100 ∧
    demo_state.kernel_pool.capacity + demo_state.user_pool.capacity = 98 ∧
    demo_state.kernel_pool.capacity + demo_state.user_pool.capacity ≠ demo_state.total_pages :=
  ⟨palloc_init_demo, total_free_pages_demo, rfl, rfl, by decide⟩

/-- C1, amended: whenever `palloc_init` completes, the capacity of the kernel
pool plus the capacity of the user pool plus the pages that hold the two
bitmaps equals `total_pages`, which equals the total page count `T`. -/
theorem c1_capacity_partition (r l : Nat) (s : State)
    (h : palloc_init r l = Outcome.ret () s) :
    s.kernel_pool.capacity + s.user_pool.capacity
        + (bm_pages (kernel_pages r l) + bm_pages (user_pages r l)) = s.total_pages ∧
      s.total_pages = total_free_pages r := by
  obtain ⟨hk, hu, rfl⟩ := palloc_init_ret r l s h
  have hK := kernel_pages_eq r l
  have hU := user_pages_le r l
  unfold init_state Pool.capacity bitmap_size
  simp only [List.length_replicate]
  exact ⟨by omega, trivial⟩

/-- C1, amended, on the machine with 100 pages: 49 + 49 + (1 + 1) = 100. -/
theorem c1_capacity_partition_witness :
    palloc_init 356 1000 = Outcome.ret () demo_state ∧
    (demo_state.kernel_pool.capacity + demo_state.user_pool.capacity
        + (bm_pages (kernel_pages 356 1000) + bm_pages (user_pages 356 1000))
        = demo_state.total_pages ∧
      demo_state.total_pages = total_free_pages 356) :=
  ⟨palloc_init_demo, c1_capacity_partition 356 1000 demo_state palloc_init_demo⟩

/-! ## Counter and bitmaps (C2) -/

/-- C2, as stated, fails in the very first reachable state: after `palloc_init`
on the machine with 100 pages the two bitmaps have 98 free bits in total while
`free_pages` is 100. -/
theorem c2_free_bits_below_counter :
    Reachable 356 1000 demo_state [] ∧
    free_bits demo_state.kernel_pool.used_map + free_bits demo_state.user_pool.used_map = 98 ∧
    demo_state.free_pages = 100 ∧
    free_bits demo_state.kernel_pool.used_map + free_bits demo_state.user_pool.used_map
      ≠ demo_state.free_pages :=
  ⟨reachable_demo, by decide, rfl, by decide⟩

/-- C2, amended: in every state reachable from `palloc_init` by calls of
`palloc_get_multiple` and calls of `palloc_free_multiple` on blocks currently
held, the free bits of the two bitmaps plus the pages that hold the two bitmaps
(`total_pages` minus the two capacities) equal `free_pages`. -/
theorem c2_counter_agrees_with_bitmaps (r l : Nat) (s : State) (h : List Block)
    (hr : Reachable r l s h) :
    free_bits s.kernel_pool.used_map + free_bits s.user_pool.used_map
        + (bm_pages (kernel_pages r l) + bm_pages (user_pages r l)) = s.free_pages ∧
      bm_pages (kernel_pages r l) + bm_pages (user_pages r l)
        = s.total_pages - (s.kernel_pool.capacity + s.user_pool.capacity) := by
  obtain ⟨g, hcnt, hfp, _, _⟩ := reachable_inv r l s h hr
  obtain ⟨hram, hk, hu⟩ := reachable_fits r l s h hr
  obtain ⟨l1, l2, l3, l4, l5⟩ := reachable_layout r l s h hr
  obtain ⟨_, _, i3, i4, i5, i6, _⟩ := init_layout r l hram hk hu
  rw [i5] at l1
  rw [i3] at l3
  rw [i4] at l5
  omega

/-- C2, amended, on the machine with 100 pages right after `palloc_init`. -/
theorem c2_counter_agrees_with_bitmaps_witness :
    Reachable 356 1000 demo_state [] ∧
    (free_bits demo_state.kernel_pool.used_map + free_bits demo_state.user_pool.used_map
        + (bm_pages (kernel_pages 356 1000) + bm_pages (user_pages 356 1000))
        = demo_state.free_pages ∧
      bm_pages (kernel_pages 356 1000) + bm_pages (user_pages 356 1000)
        = demo_state.total_pages
          - (demo_state.kernel_pool.capacity + demo_state.user_pool.capacity)) :=
  ⟨reachable_demo, c2_counter_agrees_with_bitmaps 356 1000 demo_state [] reachable_demo⟩

/-! ## First-fit allocation (C3) -/

theorem pools_eq_of_pool (s t : State) (p : PoolId) (h1 : t.pool p = s.pool p)
    (h2 : t.pool p.other = s.pool p.other) :
    t.kernel_pool = s.kernel_pool ∧ t.user_pool = s.user_pool := by
  cases p
  · exact ⟨h1, h2⟩
  · exact ⟨h2, h1⟩

theorem pool_eq_of_pools (s t : State) (h1 : t.kernel_pool = s.kernel_pool)
    (h2 : t.user_pool = s.user_pool) (p : PoolId) : t.pool p = s.pool p := by
  cases p
  · exact h1
  · exact h2

theorem scan_first_fit (b : Bitmap) (cnt : Nat) (h : ∃ j, is_run b j cnt false) :
    ∃ i, bitmap_scan b 0 cnt false = some i ∧ is_run b i cnt false ∧
      ∀ j, is_run b j cnt false → i ≤ j := by
  cases hs : bitmap_scan b 0 cnt false with
  | none =>
    obtain ⟨j, hj⟩ := h
    exact absurd hj ((bitmap_scan_eq_none b cnt).mp hs j)
  | some i =>
    obtain ⟨h1, h2⟩ := (bitmap_scan_eq_some b cnt i).mp hs
    refine ⟨i, rfl, h1, fun j hj => ?_⟩
    by_contra hlt
    exact h2 j (by omega) hj

/-- C3: in a reachable state, when the selected pool has a run of `page_cnt ≥ 1`
free bits, `palloc_get_multiple` returns `base + PGSIZE * i` for the lowest
index `i` at which such a run starts, sets exactly the bits `i .. i+page_cnt-1`
of that pool (its other bits, its base and the other pool are unchanged) and
decreases `free_pages` by exactly `page_cnt`; the address and the resulting
pools are the same from any state with the same pools and any flags with the
same pool selector. -/
theorem c3_first_fit (r l : Nat) (s : State) (h : List Block) (flags cnt : Nat)
    (hr : Reachable r l s h) (hc : 1 ≤ cnt)
    (hrun : ∃ j, is_run (s.pool (select_pool flags)).used_map j cnt false) :
    ∃ i s', palloc_get_multiple flags cnt s
        = Outcome.ret ((s.pool (select_pool flags)).base + PGSIZE * i) s' ∧
      is_run (s.pool (select_pool flags)).used_map i cnt false ∧
      (∀ j, is_run (s.pool (select_pool flags)).used_map j cnt false → i ≤ j) ∧
      (s'.pool (select_pool flags)).used_map.length
        = (s.pool (select_pool flags)).used_map.length ∧
      (∀ k, (s'.pool (select_pool flags)).used_map[k]? =
        if i ≤ k ∧ k < i + cnt then some true
        else (s.pool (select_pool flags)).used_map[k]?) ∧
      (s'.pool (select_pool flags)).base = (s.pool (select_pool flags)).base ∧
      s'.pool (select_pool flags).other = s.pool (select_pool flags).other ∧
      s'.free_pages + cnt = s.free_pages ∧
      s'.total_pages = s.total_pages ∧
      (∀ (s2 : State) (flags2 : Nat), s2.kernel_pool = s.kernel_pool →
        s2.user_pool = s.user_pool → select_pool flags2 = select_pool flags →
        ∃ t, palloc_get_multiple flags2 cnt s2
            = Outcome.ret ((s.pool (select_pool flags)).base + PGSIZE * i) t ∧
          t.kernel_pool = s'.kernel_pool ∧ t.user_pool = s'.user_pool) := by
  have hinv := reachable_inv r l s h hr
  obtain ⟨i, hs, hi, hmin⟩ := scan_first_fit _ cnt hrun
  obtain ⟨s', e1, e2, e3, e4, e5⟩ := get_found flags cnt i s (by omega) hs
  obtain ⟨gp1, gp2, gp3⟩ := geometry_pool s hinv.1 (select_pool flags)
  obtain ⟨a1, _, _⟩ := alloc_addr _ _ i cnt gp1 gp3 hi.1 hc
  obtain ⟨hb1, hb2, hb3⟩ := inv_free_pages_bound s h hinv (select_pool flags)
  have hle := is_run_free_le_free_bits _ _ _ hi
  rw [a1] at e1
  refine ⟨i, s', e1, hi, hmin, ?_, ?_, ?_, e5, ?_, e2, ?_⟩
  · rw [e4]; exact bitmap_set_loop_length _ _ _ _
  · intro k
    rw [e4]
    simp only
    rw [bitmap_set_loop_getElem?]
    have hlen := hi.1
    by_cases hk : i ≤ k ∧ k < i + cnt
    · rw [if_pos hk, if_pos ⟨hk.1, hk.2, by omega⟩]
    · rw [if_neg hk, if_neg (fun hk2 => hk ⟨hk2.1, hk2.2.1⟩)]
  · rw [e4]
  · rw [e3, size_sub_eq _ _ (by omega) (by omega)]
    omega
  · intro s2 flags2 hk2 hu2 hf2
    have hpool := pool_eq_of_pools s s2 hk2 hu2
    have hs2 : bitmap_scan (s2.pool (select_pool flags2)).used_map 0 cnt false = some i := by
      rw [hf2, hpool]; exact hs
    obtain ⟨t, f1, _, _, f4, f5⟩ := get_found flags2 cnt i s2 (by omega) hs2
    rw [hf2, hpool, a1] at f1
    refine ⟨t, f1, ?_⟩
    apply pools_eq_of_pool s' t (select_pool flags)
    · rw [← hf2, f4, hf2, hpool, e4]
    · rw [← hf2, f5, hf2, hpool, e5]

theorem is_run_demo_user : is_run (demo_state.pool (select_pool PAL_USER)).used_map 0 3 false := by
  decide

/-- C3 on the machine with 100 pages: three pages from the fresh user pool. -/
theorem c3_first_fit_witness :
    Reachable 356 1000 demo_state [] ∧
    is_run (demo_state.pool (select_pool PAL_USER)).used_map 0 3 false ∧
    ∃ i s', palloc_get_multiple PAL_USER 3 demo_state
        = Outcome.ret ((demo_state.pool (select_pool PAL_USER)).base + PGSIZE * i) s' ∧
      (∀ j, is_run (demo_state.pool (select_pool PAL_USER)).used_map j 3 false → i ≤ j) ∧
      s'.free_pages + 3 = demo_state.free_pages := by
  refine ⟨reachable_demo, is_run_demo_user, ?_⟩
  obtain ⟨i, s', h1, _, h3, _, _, _, _, h8, _, _⟩ :=
    c3_first_fit 356 1000 demo_state [] PAL_USER 3 reachable_demo (by omega)
      ⟨0, is_run_demo_user⟩
  exact ⟨i, s', h1, h3, h8⟩

theorem get_demo_eval :
    palloc_get_multiple PAL_USER 3 demo_state = Outcome.ret 3222482944 demo_state_alloc := by
  decide

/-! ## Allocate/free round trip (C4) and validity of addresses (C5) -/

theorem get_success (r l : Nat) (s s' : State) (h : List Block) (flags cnt a : Nat)
    (hr : Reachable r l s h) (hget : palloc_get_multiple flags cnt s = Outcome.ret a s')
    (ha : a ≠ 0) :
    ∃ i, 1 ≤ cnt ∧ is_run (s.pool (select_pool flags)).used_map i cnt false ∧
      a = (s.pool (select_pool flags)).base + PGSIZE * i ∧
      pg_ofs a = 0 ∧ pg_no a = pg_no (s.pool (select_pool flags)).base + i ∧
      s'.total_pages = s.total_pages ∧
      s'.free_pages + cnt = s.free_pages ∧
      s'.pool (select_pool flags) =
        { used_map := bitmap_set_loop (s.pool (select_pool flags)).used_map i true cnt,
          base := (s.pool (select_pool flags)).base } ∧
      s'.pool (select_pool flags).other = s.pool (select_pool flags).other := by
  have hinv := reachable_inv r l s h hr
  rcases get_ret_cases flags cnt a s s' hget with
    ⟨h0, _⟩ | ⟨i, hc, hs, hadr, e2, e3, e4, e5⟩
  · exact absurd h0 ha
  · have hi := ((bitmap_scan_eq_some _ _ _).mp hs).1
    obtain ⟨gp1, gp2, gp3⟩ := geometry_pool s hinv.1 (select_pool flags)
    obtain ⟨a1, a2, a3⟩ := alloc_addr _ _ i cnt gp1 gp3 hi.1 (by omega)
    obtain ⟨hb1, hb2, hb3⟩ := inv_free_pages_bound s h hinv (select_pool flags)
    have hle := is_run_free_le_free_bits _ _ _ hi
    rw [← hadr] at a1 a2 a3
    refine ⟨i, by omega, hi, a1, a2, a3, e2, ?_, e4, e5⟩
    rw [e3, size_sub_eq _ _ (by omega) (by omega)]
    omega

/-- C4: in a reachable state, if `palloc_get_multiple (flags, N)` with `N ≥ 1`
succeeds with address `a`, then `palloc_free_multiple (a, N)` returns and
restores `free_pages` and the bitmaps (and bases) of both pools to exactly
their values before the allocation. -/
theorem c4_alloc_free_round_trip (r l : Nat) (s s1 : State) (h : List Block)
    (flags n a : Nat) (hr : Reachable r l s h) (hn : 1 ≤ n)
    (hget : palloc_get_multiple flags n s = Outcome.ret a s1) (ha : a ≠ 0) :
    ∃ s2, palloc_free_multiple a n s1 = Outcome.ret () s2 ∧
      s2.free_pages = s.free_pages ∧
      s2.kernel_pool = s.kernel_pool ∧
      s2.user_pool = s.user_pool ∧
      free_bits (s2.pool (select_pool flags)).used_map
        = free_bits (s.pool (select_pool flags)).used_map ∧
      s2.total_pages = s.total_pages := by
  obtain ⟨i, _, hi, hadr, hofs, hno, e2, e3, e4, e5⟩ :=
    get_success r l s s1 h flags n a hr hget ha
  have hr1 : Reachable r l s1 ((a, n) :: h) := by
    have := Reachable.get s s1 h flags n a hr hget
    rwa [if_neg ha] at this
  have hinv1 := reachable_inv r l s1 _ hr1
  have hinv := reachable_inv r l s h hr
  have hheld := hinv1.2.2.2.1 (a, n) (List.mem_cons_self _ _)
  obtain ⟨p, t, h3, h4, f1, f2, f3, f4, f5⟩ := free_held s1 hinv1.1 a n hheld
  have hp : p = select_pool flags := by
    rcases pool_cases (select_pool flags) p with hp | hp
    · exact hp
    · exfalso
      have hin : page_from_pool (s1.pool (select_pool flags)) a = true := by
        rw [page_from_pool_iff s1 hinv1.1, e4]
        simp only [bitmap_set_loop_length]
        have := hi.1
        omega
      have := page_from_pool_other s1 hinv1.1 _ a hin
      rw [← hp, h3] at this
      cases this
  subst hp
  have hidx : page_index (s1.pool (select_pool flags)) a = i := by
    unfold page_index
    rw [e4]
    simp only
    omega
  rw [hidx, e4] at f4
  simp only at f4
  rw [set_loop_roundtrip _ _ _ hi] at f4
  rw [e5] at f5
  have hpools := pools_eq_of_pool s t (select_pool flags) f4 f5
  obtain ⟨_, _, hfp1, _, _⟩ := hinv1
  obtain ⟨g, _, hfp, _, _⟩ := hinv
  obtain ⟨_, _, _, _, _, _, g7⟩ := g
  unfold WORD at g7
  refine ⟨t, f1, ?_, hpools.1, hpools.2, ?_, ?_⟩
  · rw [f3, size_add_eq _ _ (by omega)]
    omega
  · rw [f4]
  · rw [f2, e2]

/-- C5: in a reachable state, the address of a successful
`palloc_get_multiple (flags, page_cnt)` is page-aligned, is claimed by
`page_from_pool` for the selected pool and not for the other pool, and the
`page_cnt` bits from index `pg_no address - pg_no base` lie inside the bitmap
of the selected pool and are all set. -/
theorem c5_returned_address_valid (r l : Nat) (s s' : State) (h : List Block)
    (flags cnt a : Nat) (hr : Reachable r l s h)
    (hget : palloc_get_multiple flags cnt s = Outcome.ret a s') (ha : a ≠ 0) :
    pg_ofs a = 0 ∧
    page_from_pool (s'.pool (select_pool flags)) a = true ∧
    page_from_pool (s'.pool (select_pool flags).other) a = false ∧
    pg_no a - pg_no (s'.pool (select_pool flags)).base + cnt
      ≤ bitmap_size (s'.pool (select_pool flags)).used_map ∧
    (∀ k, k < cnt → (s'.pool (select_pool flags)).used_map[
      pg_no a - pg_no (s'.pool (select_pool flags)).base + k]? = some true) := by
  obtain ⟨i, _, hi, hadr, hofs, hno, e2, e3, e4, e5⟩ :=
    get_success r l s s' h flags cnt a hr hget ha
  have hr1 : Reachable r l s' ((a, cnt) :: h) := by
    have := Reachable.get s s' h flags cnt a hr hget
    rwa [if_neg ha] at this
  have hinv1 := reachable_inv r l s' _ hr1
  have hin : page_from_pool (s'.pool (select_pool flags)) a = true := by
    rw [page_from_pool_iff s' hinv1.1, e4]
    simp only [bitmap_set_loop_length]
    have := hi.1
    omega
  have hrun := is_run_after_set (s.pool (select_pool flags)).used_map i cnt true hi.1
  have hidx : pg_no a - pg_no (s'.pool (select_pool flags)).base = i := by
    rw [e4]
    simp only
    omega
  refine ⟨hofs, hin, page_from_pool_other s' hinv1.1 _ a hin, ?_, ?_⟩
  · rw [hidx, e4]
    exact hrun.1
  · intro k hk
    rw [hidx, e4]
    exact hrun.2 k hk

/-- C4 on the machine with 100 pages: three user pages taken and given back. -/
theorem c4_alloc_free_round_trip_witness :
    Reachable 356 1000 demo_state [] ∧
    palloc_get_multiple PAL_USER 3 demo_state = Outcome.ret 3222482944 demo_state_alloc ∧
    ∃ s2, palloc_free_multiple 3222482944 3 demo_state_alloc = Outcome.ret () s2 ∧
      s2.free_pages = demo_state.free_pages ∧
      s2.kernel_pool = demo_state.kernel_pool ∧
      s2.user_pool = demo_state.user_pool ∧
      free_bits (s2.pool (select_pool PAL_USER)).used_map
        = free_bits (demo_state.pool (select_pool PAL_USER)).used_map ∧
      s2.total_pages = demo_state.total_pages :=
  ⟨reachable_demo, get_demo_eval,
    c4_alloc_free_round_trip 356 1000 demo_state demo_state_alloc [] PAL_USER 3 3222482944
      reachable_demo (by omega) get_demo_eval (by omega)⟩

/-- C5 on the machine with 100 pages: the address of three user pages. -/
theorem c5_returned_address_valid_witness :
    Reachable 356 1000 demo_state [] ∧
    palloc_get_multiple PAL_USER 3 demo_state = Outcome.ret 3222482944 demo_state_alloc ∧
    (pg_ofs 3222482944 = 0 ∧
    page_from_pool (demo_state_alloc.pool (select_pool PAL_USER)) 3222482944 = true ∧
    page_from_pool (demo_state_alloc.pool (select_pool PAL_USER).other) 3222482944 = false ∧
    pg_no 3222482944 - pg_no (demo_state_alloc.pool (select_pool PAL_USER)).base + 3
      ≤ bitmap_size (demo_state_alloc.pool (select_pool PAL_USER)).used_map ∧
    (∀ k, k < 3 → (demo_state_alloc.pool (select_pool PAL_USER)).used_map[
      pg_no 3222482944 - pg_no (demo_state_alloc.pool (select_pool PAL_USER)).base + k]?
        = some true)) :=
  ⟨reachable_demo, get_demo_eval,
    c5_returned_address_valid 356 1000 demo_state demo_state_alloc [] PAL_USER 3 3222482944
      reachable_demo get_demo_eval (by omega)⟩

/-! ## Disjoint pools (C6) -/

theorem page_from_pool_range (s : State) (g : geometry s) (p : PoolId) (a : Nat) :
    page_from_pool (s.pool p) a = true ↔
      ((s.pool p).base ≤ a ∧ a < (s.pool p).base + (s.pool p).capacity * PGSIZE) := by
  rw [page_from_pool_iff s g p a]
  obtain ⟨g1, _, _⟩ := geometry_pool s g p
  unfold Pool.capacity bitmap_size
  unfold pg_no pg_ofs PGSIZE at *
  generalize (s.pool p).base = b at *
  generalize (s.pool p).used_map.length = n at *
  constructor
  · rintro ⟨h1, h2⟩; constructor <;> omega
  · rintro ⟨h1, h2⟩; constructor <;> omega

/-- C6: in every state reachable from `palloc_init`, no address is claimed by
`page_from_pool` for both pools; `page_from_pool` claims exactly the addresses
of the range `[base, base + capacity * PGSIZE)` of a pool; the two ranges do
not overlap, and every address of the kernel range is below every address of
the user range. -/
theorem c6_pools_disjoint (r l : Nat) (s : State) (h : List Block)
    (hr : Reachable r l s h) :
    (∀ a, ¬ (page_from_pool s.kernel_pool a = true ∧ page_from_pool s.user_pool a = true)) ∧
    (∀ a, page_from_pool s.kernel_pool a = true ↔
      (s.kernel_pool.base ≤ a ∧
        a < s.kernel_pool.base + s.kernel_pool.capacity * PGSIZE)) ∧
    (∀ a, page_from_pool s.user_pool a = true ↔
      (s.user_pool.base ≤ a ∧ a < s.user_pool.base + s.user_pool.capacity * PGSIZE)) ∧
    s.kernel_pool.base + s.kernel_pool.capacity * PGSIZE ≤ s.user_pool.base ∧
    (∀ x y, s.kernel_pool.base ≤ x →
      x < s.kernel_pool.base + s.kernel_pool.capacity * PGSIZE →
      s.user_pool.base ≤ y → y < s.user_pool.base + s.user_pool.capacity * PGSIZE →
      x < y) := by
  have g := (reachable_inv r l s h hr).1
  have hsep : s.kernel_pool.base + s.kernel_pool.capacity * PGSIZE ≤ s.user_pool.base := by
    obtain ⟨g1, g2, _, g4, _, _, _⟩ := g
    unfold pg_no pg_ofs PGSIZE at *
    omega
  refine ⟨fun a ha => ?_, fun a => page_from_pool_range s g PoolId.kernel a,
    fun a => page_from_pool_range s g PoolId.user a, hsep, fun x y h1 h2 h3 h4 => by omega⟩
  have := page_from_pool_other s g PoolId.kernel a ha.1
  simp only [PoolId.other, State.pool] at this
  rw [ha.2] at this
  cases this

/-- C6 on the machine with 100 pages, right after `palloc_init`. -/
theorem c6_pools_disjoint_witness :
    Reachable 356 1000 demo_state [] ∧
    (∀ a, ¬ (page_from_pool demo_state.kernel_pool a = true ∧
      page_from_pool demo_state.user_pool a = true)) ∧
    demo_state.kernel_pool.base + demo_state.kernel_pool.capacity * PGSIZE
      ≤ demo_state.user_pool.base :=
  ⟨reachable_demo, (c6_pools_disjoint 356 1000 demo_state [] reachable_demo).1,
    (c6_pools_disjoint 356 1000 demo_state [] reachable_demo).2.2.2.1⟩

/-! ## Exhaustion (C7) and the zero-page request (C8) -/

theorem no_run_above_free_bits (b : Bitmap) (j : Nat) :
    ¬ is_run b j (free_bits b + 1) false := by
  intro h
  have := is_run_free_le_free_bits b j _ h
  omega

/-- C7: in every state, when the selected pool has no run of `page_cnt ≥ 1`
free bits, in particular when `page_cnt` is the number of free bits of the pool
plus one, `palloc_get_multiple` without `PAL_ASSERT` returns `NULL` and with
`PAL_ASSERT` aborts with a panic; in both cases both pools and `free_pages`
are unchanged. -/
theorem c7_exhaustion (s : State) (flags cnt : Nat) (hc : 1 ≤ cnt)
    (hno : (∀ j, ¬ is_run (s.pool (select_pool flags)).used_map j cnt false) ∨
      cnt = free_bits (s.pool (select_pool flags)).used_map + 1) :
    ∃ s', (has_flag flags PAL_ASSERT = false →
        palloc_get_multiple flags cnt s = Outcome.ret 0 s') ∧
      (has_flag flags PAL_ASSERT = true →
        palloc_get_multiple flags cnt s = Outcome.abort Abort.panic s') ∧
      s'.kernel_pool = s.kernel_pool ∧ s'.user_pool = s.user_pool ∧
      s'.free_pages = s.free_pages ∧ s'.total_pages = s.total_pages := by
  have hnone : bitmap_scan (s.pool (select_pool flags)).used_map 0 cnt false = none := by
    rw [bitmap_scan_eq_none]
    rcases hno with h | h
    · exact h
    · intro j
      rw [h]
      exact no_run_above_free_bits _ j
  obtain ⟨s', e1, e2, e3, e4, e5⟩ := get_not_found flags cnt s (by omega) hnone
  refine ⟨s', fun hf => ?_, fun hf => ?_, e4, e5, e3, e2⟩
  · rw [e1, hf]; rfl
  · rw [e1, hf]; rfl

/-- C7 on the machine with 100 pages: 50 pages from the kernel pool, which has
49 free pages. -/
theorem c7_exhaustion_witness :
    50 = free_bits (demo_state.pool (select_pool 0)).used_map + 1 ∧
    ∃ s', (has_flag 0 PAL_ASSERT = false →
        palloc_get_multiple 0 50 demo_state = Outcome.ret 0 s') ∧
      (has_flag 0 PAL_ASSERT = true →
        palloc_get_multiple 0 50 demo_state = Outcome.abort Abort.panic s') ∧
      s'.kernel_pool = demo_state.kernel_pool ∧ s'.user_pool = demo_state.user_pool ∧
      s'.free_pages = demo_state.free_pages ∧ s'.total_pages = demo_state.total_pages :=
  ⟨by decide, c7_exhaustion demo_state 0 50 (by omega) (Or.inr (by decide))⟩

/-- C8: for every state and every flags value, `palloc_get_multiple (flags, 0)`
returns `NULL` in the very state it was called in: no abort, no lock event, no
change of `free_pages`, `total_pages` or a bitmap. -/
theorem c8_zero_page_request (flags : Nat) (s : State) :
    palloc_get_multiple flags 0 s = Outcome.ret 0 s ∧
    palloc_get_multiple (flags ||| PAL_ASSERT ||| PAL_ZERO) 0 s = Outcome.ret 0 s :=
  ⟨get_zero flags s, get_zero _ s⟩

/-! ## Preconditions of free (C9, C10) -/

/-- C9: for every address with a non-zero page offset and every page count,
`palloc_free_multiple` aborts on its assertion in the very state it was called
in: no bitmap and no counter is modified. -/
theorem c9_free_unaligned (a cnt : Nat) (s : State) (h : pg_ofs a ≠ 0) :
    palloc_free_multiple a cnt s = Outcome.abort Abort.assertion s :=
  free_unaligned a cnt s h

/-- C9 on the machine with 100 pages: one byte into the first user page. -/
theorem c9_free_unaligned_witness :
    pg_ofs 3222482945 ≠ 0 ∧
    palloc_free_multiple 3222482945 1 demo_state
      = Outcome.abort Abort.assertion demo_state :=
  ⟨by decide, c9_free_unaligned 3222482945 1 demo_state (by decide)⟩

theorem owner_pool_none (s : State) (a : Nat) (hk : page_from_pool s.kernel_pool a = false)
    (hu : page_from_pool s.user_pool a = false) : owner_pool s a = none := by
  unfold owner_pool
  rw [hk, hu]
  rfl

theorem bitmap_pages_unowned (r l : Nat) (s : State) (h : List Block)
    (hr : Reachable r l s h) (a : Nat)
    (ha : (free_start ≤ a ∧ a < s.kernel_pool.base) ∨
      (free_start + kernel_pages r l * PGSIZE ≤ a ∧ a < s.user_pool.base)) :
    a ≠ 0 ∧ page_from_pool s.kernel_pool a = false ∧ page_from_pool s.user_pool a = false := by
  have g := (reachable_inv r l s h hr).1
  obtain ⟨hram, hk, hu⟩ := reachable_fits r l s h hr
  obtain ⟨l1, l2, l3, l4, l5⟩ := reachable_layout r l s h hr
  obtain ⟨i1, i2, i3, i4, _, _, _⟩ := init_layout r l hram hk hu
  rw [i1] at l2
  rw [i3] at l3
  rw [i2] at l4
  rw [i4] at l5
  have hkf := page_from_pool_iff s g PoolId.kernel a
  have huf := page_from_pool_iff s g PoolId.user a
  simp only [State.pool] at hkf huf
  obtain ⟨g1, g2, g3, g4, _, _, _⟩ := g
  unfold Pool.capacity bitmap_size at l3 l5 g4
  rw [free_start_eq] at ha l2 l4
  unfold pg_no pg_ofs PGSIZE at *
  generalize bm_pages (kernel_pages r l) = bk at *
  generalize bm_pages (user_pages r l) = bu at *
  generalize kernel_pages r l = K at *
  generalize user_pages r l = U at *
  refine ⟨by omega, ?_, ?_⟩
  · rw [← Bool.not_eq_true, hkf]; omega
  · rw [← Bool.not_eq_true, huf]; omega

/-- C10: for every non-null page-aligned address that `page_from_pool` claims
for neither pool and every page count of at least one, `palloc_free_multiple`
aborts in its `NOT_REACHED` branch in the very state it was called in; in a
reachable state this is the case of every page-aligned address inside the
pages that hold the bitmap of the kernel pool or of the user pool. -/
theorem c10_free_unowned :
    (∀ (a cnt : Nat) (s : State), a ≠ 0 → pg_ofs a = 0 → 1 ≤ cnt →
      page_from_pool s.kernel_pool a = false → page_from_pool s.user_pool a = false →
      palloc_free_multiple a cnt s = Outcome.abort Abort.not_reached s) ∧
    (∀ (r l : Nat) (s : State) (h : List Block) (a cnt : Nat), Reachable r l s h →
      ((free_start ≤ a ∧ a < s.kernel_pool.base) ∨
        (free_start + kernel_pages r l * PGSIZE ≤ a ∧ a < s.user_pool.base)) →
      pg_ofs a = 0 → 1 ≤ cnt →
      palloc_free_multiple a cnt s = Outcome.abort Abort.not_reached s) := by
  constructor
  · intro a cnt s ha0 ha hc hk hu
    exact free_unowned a cnt s ha ha0 (by omega) (owner_pool_none s a hk hu)
  · intro r l s h a cnt hr hrange ha hc
    obtain ⟨ha0, hk, hu⟩ := bitmap_pages_unowned r l s h hr a hrange
    exact free_unowned a cnt s ha ha0 (by omega) (owner_pool_none s a hk hu)

/-- C10 on the machine with 100 pages: the page before the kernel pool's first
page holds the kernel bitmap, and an address far below both pools. -/
theorem c10_free_unowned_witness :
    palloc_free_multiple 4096 1 demo_state = Outcome.abort Abort.not_reached demo_state ∧
    Reachable 356 1000 demo_state [] ∧
    (free_start ≤ 3222274048 ∧ 3222274048 < demo_state.kernel_pool.base) ∧
    palloc_free_multiple 3222274048 1 demo_state
      = Outcome.abort Abort.not_reached demo_state :=
  ⟨c10_free_unowned.1 4096 1 demo_state (by decide) (by decide) (by omega) (by decide)
      (by decide),
    reachable_demo, by decide,
    c10_free_unowned.2 356 1000 demo_state [] 3222274048 1 reachable_demo
      (Or.inl (by decide)) (by decide) (by omega)⟩

/-! ## Pool construction and the split (C11, C12, C18) -/

theorem bm_pages_one : bm_pages 1 = 1 := by
  unfold bm_pages bitmap_buf_size DIV_ROUND_UP PGSIZE
  rfl

/-- C11, as stated, fails: for `N = 1` the bitmap needs `m = 1` page, so
`m >= N`, and `init_pool` does not abort but returns with a pool of capacity
zero. -/
theorem c11_no_abort_when_bitmap_fills_pool :
    bm_pages 1 = 1 ∧
    init_pool PoolId.kernel free_start 1 State.boot
      = Outcome.ret ()
          { total_pages := 0, free_pages := 0,
            kernel_pool := { used_map := [], base := 3222278144 },
            user_pool := { used_map := [], base := 0 },
            trace := [] } := by
  refine ⟨bm_pages_one, ?_⟩
  rw [init_pool_ret _ _ _ _ (by rw [bm_pages_one]), bm_pages_one, set_pool_kernel,
    free_start_eq]
  rfl

/-- C11, amended: with `m` the number of whole pages needed to hold the
occupancy map for `N` entries, `init_pool` aborts fatally if and only if
`m > N`, and then by its panic; when `m ≤ N`, in particular when `m = N`, it
returns with a pool of capacity `N - m`. -/
theorem c11_init_pool_aborts_iff (p : PoolId) (base N : Nat) (s : State) :
    ((∃ k s', init_pool p base N s = Outcome.abort k s') ↔ N < bm_pages N) ∧
    (init_pool p base N s = Outcome.abort Abort.panic s ↔ N < bm_pages N) ∧
    ((∃ s', init_pool p base N s = Outcome.ret () s' ∧
        (s'.pool p).capacity = N - bm_pages N) ↔ bm_pages N ≤ N) := by
  by_cases h : N < bm_pages N
  · have e := init_pool_abort p base N s h
    refine ⟨⟨fun _ => h, fun _ => ⟨_, _, e⟩⟩, ⟨fun _ => h, fun _ => e⟩, ⟨?_, fun h2 => ?_⟩⟩
    · rintro ⟨s', hs, _⟩
      rw [e] at hs
      cases hs
    · omega
  · have e := init_pool_ret p base N s (by omega)
    refine ⟨⟨?_, fun h2 => absurd h2 h⟩, ⟨?_, fun h2 => absurd h2 h⟩, ⟨fun _ => by omega,
      fun _ => ⟨_, e, ?_⟩⟩⟩
    · rintro ⟨k, s', hs⟩
      rw [e] at hs
      cases hs
    · intro hs
      rw [e] at hs
      cases hs
    · cases p <;> simp [State.set_pool, State.pool, Pool.capacity, bitmap_size]

theorem palloc_init_carves (r l : Nat) :
    palloc_init r l =
      Outcome.seq
        (init_pool PoolId.kernel free_start
          (total_free_pages r - min (total_free_pages r / 2) l)
          { total_pages := total_free_pages r, free_pages := total_free_pages r,
            kernel_pool := State.boot.kernel_pool, user_pool := State.boot.user_pool,
            trace := State.boot.trace })
        (fun s' => init_pool PoolId.user
          ((free_start + (total_free_pages r - min (total_free_pages r / 2) l) * PGSIZE) % WORD)
          (min (total_free_pages r / 2) l) s') := by
  have hu : user_pages r l = min (total_free_pages r / 2) l := by
    unfold user_pages
    split <;> omega
  have hk := kernel_pages_eq r l
  rw [hu] at hk
  unfold palloc_init
  rw [hk, hu]

/-- C12: `palloc_init` carves `min (T / 2, L)` pages for the user pool and `T`
minus that for the kernel pool, these being the page counts it passes to
`init_pool`; whenever it completes, each pool's capacity is its carved count
minus the pages of its own bitmap and the user pool's capacity is at most `L`. -/
theorem c12_split_policy (r l : Nat) (s : State)
    (h : palloc_init r l = Outcome.ret () s) :
    palloc_init r l =
      Outcome.seq
        (init_pool PoolId.kernel free_start
          (total_free_pages r - min (total_free_pages r / 2) l)
          { total_pages := total_free_pages r, free_pages := total_free_pages r,
            kernel_pool := State.boot.kernel_pool, user_pool := State.boot.user_pool,
            trace := State.boot.trace })
        (fun s' => init_pool PoolId.user
          ((free_start + (total_free_pages r - min (total_free_pages r / 2) l) * PGSIZE) % WORD)
          (min (total_free_pages r / 2) l) s') ∧
    user_pages r l = min (total_free_pages r / 2) l ∧
    kernel_pages r l = total_free_pages r - min (total_free_pages r / 2) l ∧
    s.user_pool.capacity = user_pages r l - bm_pages (user_pages r l) ∧
    s.kernel_pool.capacity = kernel_pages r l - bm_pages (kernel_pages r l) ∧
    s.user_pool.capacity ≤ l := by
  obtain ⟨_, _, rfl⟩ := palloc_init_ret r l s h
  have hu : user_pages r l = min (total_free_pages r / 2) l := by
    unfold user_pages
    split <;> omega
  have hk := kernel_pages_eq r l
  have hl := user_pages_le_limit r l
  refine ⟨palloc_init_carves r l, hu, by rw [hk, hu], ?_, ?_, ?_⟩
  · simp [init_state, Pool.capacity, bitmap_size]
  · simp [init_state, Pool.capacity, bitmap_size]
  · simp only [init_state, Pool.capacity, bitmap_size, List.length_replicate]
    omega

/-- C12 for `T = 100` and `L = 1000`: each pool is carved 50 pages and keeps
49, its bitmap taking one page. -/
theorem c12_split_policy_witness :
    palloc_init 356 1000 = Outcome.ret () demo_state ∧
    total_free_pages 356 = 100 ∧
    user_pages 356 1000 = 50 ∧ kernel_pages 356 1000 = 50 ∧ bm_pages 50 = 1 ∧
    demo_state.user_pool.capacity = 49 ∧ demo_state.kernel_pool.capacity = 49 ∧
    demo_state.user_pool.capacity = user_pages 356 1000 - bm_pages (user_pages 356 1000) ∧
    demo_state.kernel_pool.capacity
      = kernel_pages 356 1000 - bm_pages (kernel_pages 356 1000) ∧
    demo_state.user_pool.capacity ≤ 1000 :=
  ⟨palloc_init_demo, total_free_pages_demo, user_pages_demo, kernel_pages_demo,
    bm_pages_demo, rfl, rfl,
    (c12_split_policy 356 1000 demo_state palloc_init_demo).2.2.2.1,
    (c12_split_policy 356 1000 demo_state palloc_init_demo).2.2.2.2.1,
    (c12_split_policy 356 1000 demo_state palloc_init_demo).2.2.2.2.2⟩

theorem init_pool_result (p : PoolId) (b N : Nat) (s s' : State)
    (h : init_pool p b N s = Outcome.ret () s') :
    bm_pages N ≤ N ∧
    s'.pool p = { used_map := List.replicate (N - bm_pages N) false,
                  base := (b + bm_pages N * PGSIZE) % WORD } ∧
    s'.pool p.other = s.pool p.other ∧
    s'.total_pages = s.total_pages ∧ s'.free_pages = s.free_pages := by
  by_cases hN : N < bm_pages N
  · rw [init_pool_abort p b N s hN] at h
    cases h
  · rw [init_pool_ret p b N s (by omega)] at h
    injection h with _ h
    subst h
    refine ⟨by omega, ?_⟩
    cases p <;> exact ⟨rfl, rfl, rfl, rfl⟩

/-- C18: whenever `init_pool` on a region starting at `b` with `N` pages does
not abort, with `m` the pages of the bitmap, the pool's capacity is `N - m`,
its base is `b + m * PGSIZE` (as a machine-word address, and exactly that sum
whenever it fits the word), every bit of its bitmap is free, and nothing else
changes; hence whenever `palloc_init` completes,
`total_pages = free_pages = T = kernel capacity + user capacity + the bitmap
pages of both pools`, all bits of both bitmaps being free, so that the
allocatable pages number less than `free_pages` by the bitmap pages. -/
theorem c18_pool_construction :
    (∀ (p : PoolId) (b N : Nat) (s s' : State),
      init_pool p b N s = Outcome.ret () s' →
      bm_pages N ≤ N ∧
      (s'.pool p).capacity = N - bm_pages N ∧
      (s'.pool p).base = (b + bm_pages N * PGSIZE) % WORD ∧
      (b + bm_pages N * PGSIZE < WORD → (s'.pool p).base = b + bm_pages N * PGSIZE) ∧
      (∀ k, k < (s'.pool p).capacity → (s'.pool p).used_map[k]? = some false) ∧
      free_bits (s'.pool p).used_map = (s'.pool p).capacity ∧
      s'.pool p.other = s.pool p.other ∧
      s'.total_pages = s.total_pages ∧ s'.free_pages = s.free_pages) ∧
    (∀ (r l : Nat) (s : State), palloc_init r l = Outcome.ret () s →
      s.total_pages = total_free_pages r ∧ s.free_pages = total_free_pages r ∧
      total_free_pages r = s.kernel_pool.capacity + s.user_pool.capacity
        + (bm_pages (kernel_pages r l) + bm_pages (user_pages r l)) ∧
      1 ≤ bm_pages (kernel_pages r l) ∧ 1 ≤ bm_pages (user_pages r l) ∧
      free_bits s.kernel_pool.used_map + free_bits s.user_pool.used_map
        + (bm_pages (kernel_pages r l) + bm_pages (user_pages r l)) = s.free_pages ∧
      (ram_ok r →
        s.kernel_pool.base = free_start + bm_pages (kernel_pages r l) * PGSIZE ∧
        s.user_pool.base = free_start + kernel_pages r l * PGSIZE
          + bm_pages (user_pages r l) * PGSIZE)) := by
  constructor
  · intro p b N s s' h
    obtain ⟨h1, h2, h3, h4, h5⟩ := init_pool_result p b N s s' h
    rw [h2]
    refine ⟨h1, ?_, rfl, fun hlt => ?_, fun k hk => ?_, ?_, h3, h4, h5⟩
    · simp [Pool.capacity, bitmap_size]
    · exact Nat.mod_eq_of_lt hlt
    · simp only [Pool.capacity, bitmap_size, List.length_replicate] at hk
      simp only
      rw [List.getElem?_replicate, if_pos hk]
    · simp [Pool.capacity, bitmap_size, free_bits_replicate]
  · intro r l s h
    obtain ⟨hk, hu, rfl⟩ := palloc_init_ret r l s h
    have hK := kernel_pages_eq r l
    have hU := user_pages_le r l
    have hbk : 1 ≤ bm_pages (kernel_pages r l) := by
      unfold bm_pages bitmap_buf_size DIV_ROUND_UP PGSIZE
      omega
    have hbu : 1 ≤ bm_pages (user_pages r l) := by
      unfold bm_pages bitmap_buf_size DIV_ROUND_UP PGSIZE
      omega
    refine ⟨by simp only [init_state], by simp only [init_state], ?_, hbk, hbu, ?_,
      fun hram => ?_⟩
    · simp only [init_state, Pool.capacity, bitmap_size, List.length_replicate]
      omega
    · simp only [init_state, free_bits_replicate]
      omega
    · obtain ⟨i1, i2, _⟩ := init_layout r l hram hk hu
      exact ⟨i1, i2⟩

/-- C18 on the machine with 100 pages: the kernel pool is built on 50 pages at
`free_start`, and the whole initialisation. -/
theorem c18_pool_construction_witness :
    init_pool PoolId.kernel free_start 50
        { total_pages := 100, free_pages := 100, kernel_pool := State.boot.kernel_pool,
          user_pool := State.boot.user_pool, trace := [] }
      = Outcome.ret ()
        { total_pages := 100, free_pages := 100,
          kernel_pool := { used_map := List.replicate 49 false, base := 3222278144 },
          user_pool := State.boot.user_pool, trace := [] } ∧
    (List.replicate 49 false : Bitmap).length = 50 - bm_pages 50 ∧
    palloc_init 356 1000 = Outcome.ret () demo_state ∧
    demo_state.total_pages = total_free_pages 356 ∧
    total_free_pages 356 = demo_state.kernel_pool.capacity + demo_state.user_pool.capacity
        + (bm_pages (kernel_pages 356 1000) + bm_pages (user_pages 356 1000)) := by
  have e : init_pool PoolId.kernel free_start 50
        { total_pages := 100, free_pages := 100, kernel_pool := State.boot.kernel_pool,
          user_pool := State.boot.user_pool, trace := [] }
      = Outcome.ret ()
        { total_pages := 100, free_pages := 100,
          kernel_pool := { used_map := List.replicate 49 false, base := 3222278144 },
          user_pool := State.boot.user_pool, trace := [] } := by
    rw [init_pool_ret _ _ _ _ (by rw [bm_pages_demo]; omega), bm_pages_demo, set_pool_kernel,
      free_start_eq]
    rfl
  have h1 := c18_pool_construction.1 PoolId.kernel free_start 50 _ _ e
  have h2 := c18_pool_construction.2 356 1000 demo_state palloc_init_demo
  exact ⟨e, h1.2.1, palloc_init_demo, h2.1, h2.2.2.1⟩

/-! ## Address reuse (C13) -/

theorem runs_disjoint (b : Bitmap) (i j n : Nat) (hn : 1 ≤ n)
    (hi : is_run b i n true) (hj : is_run b j n false) : i + n ≤ j ∨ j + n ≤ i := by
  by_contra hcon
  by_cases hle : i ≤ j
  · have e1 := hi.2 (j - i) (by omega)
    have e2 := hj.2 0 (by omega)
    rw [show i + (j - i) = j + 0 by omega, e2] at e1
    cases e1
  · have e1 := hi.2 0 (by omega)
    have e2 := hj.2 (i - j) (by omega)
    rw [show j + (i - j) = i + 0 by omega, e1] at e2
    cases e2

theorem scan_after_reuse (b : Bitmap) (n i1 i2 : Nat) (hn : 1 ≤ n)
    (h1 : bitmap_scan b 0 n false = some i1)
    (h2 : bitmap_scan (bitmap_set_loop b i1 true n) 0 n false = some i2) :
    (i1 + n ≤ i2 ∨ i2 + n ≤ i1) ∧
    bitmap_scan
      (bitmap_set_loop (bitmap_set_loop (bitmap_set_loop b i1 true n) i2 true n) i1 false n)
      0 n false = some i1 := by
  obtain ⟨r1, m1⟩ := (bitmap_scan_eq_some b n i1).mp h1
  obtain ⟨r2, _⟩ := (bitmap_scan_eq_some _ n i2).mp h2
  have hdis := runs_disjoint _ i1 i2 n hn (is_run_after_set b i1 n true r1.1) r2
  refine ⟨hdis, ?_⟩
  rw [bitmap_scan_eq_some]
  have hlen : i1 + n ≤ (bitmap_set_loop (bitmap_set_loop b i1 true n) i2 true n).length := by
    rw [bitmap_set_loop_length, bitmap_set_loop_length]; exact r1.1
  refine ⟨is_run_after_set _ i1 n false hlen, fun j hj hrun => m1 j hj ⟨?_, fun k hk => ?_⟩⟩
  · have := hrun.1
    rw [bitmap_set_loop_length, bitmap_set_loop_length, bitmap_set_loop_length] at this
    exact this
  · have e := hrun.2 k hk
    by_cases hin : i1 ≤ j + k ∧ j + k < i1 + n
    · have := r1.2 (j + k - i1) (by omega)
      rw [show i1 + (j + k - i1) = j + k by omega] at this
      exact this
    · rw [bitmap_set_loop_getElem?_outside _ _ _ _ _ (by omega)] at e
      rw [bitmap_set_loop_getElem?] at e
      split at e
      · cases e
      · rw [bitmap_set_loop_getElem?_outside _ _ _ _ _ (by omega)] at e
        exact e

/-- C13: in a reachable state, if two consecutive calls of
`palloc_get_multiple` for `n ≥ 1` pages on the same pool succeed with addresses
`a1` and `a2`, the two blocks do not overlap (the addresses differ by at least
`n * PGSIZE`), `palloc_free_multiple (a1, n)` returns, and the next
`palloc_get_multiple` for `n` pages on that pool returns `a1` again. -/
theorem c13_address_reuse (r l : Nat) (s s1 s2 : State) (h : List Block)
    (f1 f2 f3 n a1 a2 : Nat) (hr : Reachable r l s h) (hn : 1 ≤ n)
    (hg1 : palloc_get_multiple f1 n s = Outcome.ret a1 s1) (ha1 : a1 ≠ 0)
    (hg2 : palloc_get_multiple f2 n s1 = Outcome.ret a2 s2) (ha2 : a2 ≠ 0)
    (hp2 : select_pool f2 = select_pool f1) (hp3 : select_pool f3 = select_pool f1) :
    (a1 + n * PGSIZE ≤ a2 ∨ a2 + n * PGSIZE ≤ a1) ∧
    ∃ s3, palloc_free_multiple a1 n s2 = Outcome.ret () s3 ∧
      ∃ s4, palloc_get_multiple f3 n s3 = Outcome.ret a1 s4 := by
  obtain ⟨i1, _, hi1, hadr1, hofs1, hno1, e2, e3, e4, e5⟩ :=
    get_success r l s s1 h f1 n a1 hr hg1 ha1
  have hr1 : Reachable r l s1 ((a1, n) :: h) := by
    have := Reachable.get s s1 h f1 n a1 hr hg1
    rwa [if_neg ha1] at this
  obtain ⟨i2, _, hi2, hadr2, hofs2, hno2, g2, g3, g4, g5⟩ :=
    get_success r l s1 s2 _ f2 n a2 hr1 hg2 ha2
  have hr2 : Reachable r l s2 ((a2, n) :: (a1, n) :: h) := by
    have := Reachable.get s1 s2 _ f2 n a2 hr1 hg2
    rwa [if_neg ha2] at this
  rw [hp2] at hi2 hadr2 hno2 g4 g5
  rw [e4] at hi2 hadr2 hno2 g4
  simp only at hi2 hadr2 hno2 g4
  have hs1 : bitmap_scan (s.pool (select_pool f1)).used_map 0 n false = some i1 := by
    rcases get_ret_cases f1 n a1 s s1 hg1 with ⟨h0, _⟩ | ⟨i, _, hs, hadr, _⟩
    · exact absurd h0 ha1
    · have hinv := reachable_inv r l s h hr
      obtain ⟨gp1, _, gp3⟩ := geometry_pool s hinv.1 (select_pool f1)
      have hri := ((bitmap_scan_eq_some _ _ _).mp hs).1
      obtain ⟨a1', _, _⟩ := alloc_addr _ _ i n gp1 gp3 hri.1 hn
      rw [a1'] at hadr
      have : i = i1 := by
        unfold PGSIZE at hadr hadr1
        omega
      rw [← this]; exact hs
  have hs2 : bitmap_scan (bitmap_set_loop (s.pool (select_pool f1)).used_map i1 true n)
      0 n false = some i2 := by
    rcases get_ret_cases f2 n a2 s1 s2 hg2 with ⟨h0, _⟩ | ⟨i, _, hs, hadr, _⟩
    · exact absurd h0 ha2
    · rw [hp2, e4] at hs hadr
      simp only at hs hadr
      have hinv := reachable_inv r l s h hr
      obtain ⟨gp1, _, gp3⟩ := geometry_pool s hinv.1 (select_pool f1)
      have hri := ((bitmap_scan_eq_some _ _ _).mp hs).1.1
      rw [bitmap_set_loop_length] at hri
      obtain ⟨a2', _, _⟩ := alloc_addr _ _ i n gp1 gp3 hri hn
      rw [a2'] at hadr
      have : i = i2 := by
        unfold PGSIZE at hadr hadr2
        omega
      rw [← this]; exact hs
  obtain ⟨hdis, hs3⟩ := scan_after_reuse _ n i1 i2 hn hs1 hs2
  have hinv2 := reachable_inv r l s2 _ hr2
  have hmem : (a1, n) ∈ (a2, n) :: (a1, n) :: h :=
    List.mem_cons_of_mem _ (List.mem_cons_self _ _)
  obtain ⟨p, t, h3, h4, q1, q2, q3, q4, q5⟩ := free_held s2 hinv2.1 a1 n (hinv2.2.2.2.1 _ hmem)
  have hp : p = select_pool f1 := by
    rcases pool_cases (select_pool f1) p with hp | hp
    · exact hp
    · exfalso
      have hin : page_from_pool (s2.pool (select_pool f1)) a1 = true := by
        rw [page_from_pool_iff s2 hinv2.1, g4]
        simp only [bitmap_set_loop_length]
        have := hi1.1
        omega
      have := page_from_pool_other s2 hinv2.1 _ a1 hin
      rw [← hp, h3] at this
      cases this
  subst hp
  have hidx : page_index (s2.pool (select_pool f1)) a1 = i1 := by
    unfold page_index
    rw [g4]
    simp only
    omega
  rw [hidx, g4] at q4
  simp only at q4
  refine ⟨?_, t, q1, ?_⟩
  · unfold PGSIZE
    unfold PGSIZE at hadr1 hadr2
    omega
  · have hs3' : bitmap_scan (t.pool (select_pool f3)).used_map 0 n false = some i1 := by
      rw [hp3, q4]; exact hs3
    obtain ⟨s4, w1, _⟩ := get_found f3 n i1 t (by omega) hs3'
    rw [hp3, q4] at w1
    simp only at w1
    have hinv := reachable_inv r l s h hr
    obtain ⟨gp1, _, gp3⟩ := geometry_pool s hinv.1 (select_pool f1)
    obtain ⟨a1', _, _⟩ := alloc_addr _ _ i1 n gp1 gp3 hi1.1 hn
    rw [a1', ← hadr1] at w1
    exact ⟨s4, w1⟩

theorem get_demo_eval2 :
    palloc_get_multiple PAL_USER 3 demo_state_alloc
      = Outcome.ret 3222495232 demo_state_alloc2 := by
  decide

/-- C13 for `T = 100`, `L = 1000`, the user pool and `n = 3`. -/
theorem c13_address_reuse_witness :
    Reachable 356 1000 demo_state [] ∧
    palloc_get_multiple PAL_USER 3 demo_state = Outcome.ret 3222482944 demo_state_alloc ∧
    palloc_get_multiple PAL_USER 3 demo_state_alloc
      = Outcome.ret 3222495232 demo_state_alloc2 ∧
    (3222482944 + 3 * PGSIZE ≤ 3222495232 ∨ 3222495232 + 3 * PGSIZE ≤ 3222482944) ∧
    ∃ s3, palloc_free_multiple 3222482944 3 demo_state_alloc2 = Outcome.ret () s3 ∧
      ∃ s4, palloc_get_multiple PAL_USER 3 s3 = Outcome.ret 3222482944 s4 :=
  ⟨reachable_demo, get_demo_eval, get_demo_eval2,
    c13_address_reuse 356 1000 demo_state demo_state_alloc demo_state_alloc2 []
      PAL_USER PAL_USER PAL_USER 3 3222482944 3222495232 reachable_demo (by omega)
      get_demo_eval (by omega) get_demo_eval2 (by omega) rfl rfl⟩

/-! ## Counter exactness (C14) -/

/-- C14: in every state reachable by calls of `palloc_get_multiple` and calls of
`palloc_free_multiple` on blocks currently held, each call one atomic step,
`free_pages` equals `total_pages` minus the number of pages currently held,
exactly; hence `free_pages ≤ total_pages`, and a successful allocation never
asks for more pages than `free_pages`, so its subtraction does not wrap. -/
theorem c14_counter_exact (r l : Nat) (s : State) (h : List Block)
    (hr : Reachable r l s h) :
    s.free_pages + held_pages h = s.total_pages ∧
    s.free_pages = s.total_pages - held_pages h ∧
    s.free_pages ≤ s.total_pages ∧
    (∀ flags cnt a s', palloc_get_multiple flags cnt s = Outcome.ret a s' → a ≠ 0 →
      cnt ≤ s.free_pages ∧ s'.free_pages = s.free_pages - cnt) ∧
    (∀ a cnt s', (a, cnt) ∈ h → palloc_free_multiple a cnt s = Outcome.ret () s' →
      s'.free_pages = s.free_pages + cnt) := by
  obtain ⟨g, _, hfp, _, _⟩ := reachable_inv r l s h hr
  refine ⟨hfp, by omega, by omega, fun flags cnt a s' hget ha => ?_,
    fun a cnt s' hmem hfree => ?_⟩
  · obtain ⟨_, _, _, _, _, _, _, e3, _, _⟩ := get_success r l s s' h flags cnt a hr hget ha
    omega
  · have hr' := Reachable.free s s' h a cnt hr hmem hfree
    obtain ⟨_, _, hfp', _, _⟩ := reachable_inv r l s' _ hr'
    obtain ⟨p, t, _, _, q1, q2, _, _, _⟩ :=
      free_held s g a cnt ((reachable_inv r l s h hr).2.2.2.1 _ hmem)
    rw [q1] at hfree
    injection hfree with _ hst
    subst hst
    have := held_pages_erase h (a, cnt) hmem
    simp only at this
    omega

theorem reachable_demo_alloc :
    Reachable 356 1000 demo_state_alloc [(3222482944, 3)] := by
  have := Reachable.get demo_state demo_state_alloc [] PAL_USER 3 3222482944
    reachable_demo get_demo_eval
  rwa [if_neg (by omega)] at this

/-- C14 on the machine with 100 pages while three user pages are held:
`97 + 3 = 100`. -/
theorem c14_counter_exact_witness :
    Reachable 356 1000 demo_state_alloc [(3222482944, 3)] ∧
    demo_state_alloc.free_pages + held_pages [(3222482944, 3)]
      = demo_state_alloc.total_pages ∧
    demo_state_alloc.free_pages ≤ demo_state_alloc.total_pages :=
  ⟨reachable_demo_alloc,
    (c14_counter_exact 356 1000 demo_state_alloc _ reachable_demo_alloc).1,
    (c14_counter_exact 356 1000 demo_state_alloc _ reachable_demo_alloc).2.2.1⟩

/-! ## Degenerate free (C15) -/

/-- C15, as stated, fails: for an address that is not page-aligned,
`palloc_free_multiple (a, 0)` does not return but aborts on the alignment
assertion, which precedes the test for a zero page count. -/
theorem c15_free_zero_pages_unaligned_aborts :
    pg_ofs 3222482945 ≠ 0 ∧
    palloc_free_multiple 3222482945 0 demo_state
      = Outcome.abort Abort.assertion demo_state :=
  ⟨by decide, free_unaligned _ _ _ (by decide)⟩

/-- C15, amended: for every page count, `palloc_free_multiple (NULL, page_cnt)`
returns in the very state it was called in, and for every page-aligned address
`a`, `palloc_free_multiple (a, 0)` returns in the very state it was called in. -/
theorem c15_degenerate_free :
    (∀ (cnt : Nat) (s : State), palloc_free_multiple 0 cnt s = Outcome.ret () s) ∧
    (∀ (a : Nat) (s : State), pg_ofs a = 0 →
      palloc_free_multiple a 0 s = Outcome.ret () s) :=
  ⟨fun cnt s => free_degenerate 0 cnt s rfl (Or.inl rfl),
    fun a s ha => free_degenerate a 0 s ha (Or.inr rfl)⟩

/-- C15, amended, on the machine with 100 pages. -/
theorem c15_degenerate_free_witness :
    palloc_free_multiple 0 5 demo_state = Outcome.ret () demo_state ∧
    pg_ofs 3222482944 = 0 ∧
    palloc_free_multiple 3222482944 0 demo_state = Outcome.ret () demo_state :=
  ⟨c15_degenerate_free.1 5 demo_state, by decide,
    c15_degenerate_free.2 3222482944 demo_state (by decide)⟩

/-! ## The events of an allocation -/

theorem get_trace_found (flags cnt i : Nat) (s : State) (hc : cnt ≠ 0)
    (h : bitmap_scan (s.pool (select_pool flags)).used_map 0 cnt false = some i) :
    ∃ s', palloc_get_multiple flags cnt s
        = Outcome.ret (((s.pool (select_pool flags)).base + PGSIZE * i) % WORD) s' ∧
      s'.trace = s.trace ++
        ([Event.lock_acquire (select_pool flags), Event.bitmap_op (select_pool flags),
          Event.lock_release (select_pool flags)] ++
        (if has_flag flags PAL_ZERO then
          [Event.memset (((s.pool (select_pool flags)).base + PGSIZE * i) % WORD) 0
            ((PGSIZE * cnt) % WORD)]
         else [])) := by
  unfold palloc_get_multiple
  simp only [if_neg hc]
  cases hp : select_pool flags <;> rw [hp] at h <;>
    simp only [State.pool, State.log, State.set_pool, State.set_free_pages,
      Pool.set_used_map] at h ⊢ <;>
    simp only [bitmap_scan_and_flip, h, Bool.not_false] <;>
    cases has_flag flags PAL_ZERO <;>
    exact ⟨_, rfl, by simp⟩

theorem get_trace_not_found (flags cnt : Nat) (s : State) (hc : cnt ≠ 0)
    (h : bitmap_scan (s.pool (select_pool flags)).used_map 0 cnt false = none) :
    ∃ s', palloc_get_multiple flags cnt s
        = (if has_flag flags PAL_ASSERT then Outcome.abort Abort.panic s'
           else Outcome.ret 0 s') ∧
      s'.trace = s.trace ++
        [Event.lock_acquire (select_pool flags), Event.bitmap_op (select_pool flags),
          Event.lock_release (select_pool flags)] := by
  unfold palloc_get_multiple
  simp only [if_neg hc]
  cases hp : select_pool flags <;> rw [hp] at h <;>
    simp only [State.pool, State.log, State.set_pool] at h ⊢ <;>
    simp only [bitmap_scan_and_flip, h] <;>
    exact ⟨_, rfl, by simp⟩

/-! ## Double free (C17, C20) -/

theorem owner_pool_some (s : State) (a : Nat) (p : PoolId) (h : owner_pool s a = some p) :
    page_from_pool (s.pool p) a = true := by
  unfold owner_pool at h
  by_cases hk : page_from_pool s.kernel_pool a = true
  · rw [if_pos hk] at h
    injection h with h
    subst h
    exact hk
  · rw [if_neg hk] at h
    by_cases hu : page_from_pool s.user_pool a = true
    · rw [if_pos hu] at h
      injection h with h
      subst h
      exact hu
    · rw [if_neg hu] at h
      cases h

theorem set_loop_same (b : Bitmap) (i n : Nat) (v : Bool) (h : is_run b i n v) :
    bitmap_set_loop b i v n = b := by
  apply List.ext_getElem?
  intro j
  rw [bitmap_set_loop_getElem?]
  by_cases hj : i ≤ j ∧ j < i + n ∧ j < b.length
  · rw [if_pos hj]
    have := h.2 (j - i) (by omega)
    rw [show i + (j - i) = j by omega] at this
    exact this.symm
  · rw [if_neg hj]

/-- C17: for every non-null page-aligned address that `palloc_free_multiple`
attributes to a pool and every page count of at least one whose page range
lies inside that pool, the call returns, clears the `page_cnt` bits from index
`pg_no address - pg_no base`, leaves every other bit, the base and the other
pool unchanged, and adds `page_cnt` to `free_pages` (in `size_t` arithmetic,
exactly `page_cnt` more whenever the sum fits the word), whether or not those
bits were set; when they were all free already, both pools are unchanged and
`free_pages` is increased all the same. -/
theorem c17_double_free (s : State) (a cnt : Nat) (p : PoolId)
    (ha : pg_ofs a = 0) (ha0 : a ≠ 0) (haw : a < WORD) (hc : 1 ≤ cnt)
    (ho : owner_pool s a = some p)
    (hr : page_index (s.pool p) a + cnt ≤ bitmap_size (s.pool p).used_map) :
    ∃ s', palloc_free_multiple a cnt s = Outcome.ret () s' ∧
      (∀ k, (s'.pool p).used_map[k]? =
        if page_index (s.pool p) a ≤ k ∧ k < page_index (s.pool p) a + cnt then some false
        else (s.pool p).used_map[k]?) ∧
      (s'.pool p).used_map.length = (s.pool p).used_map.length ∧
      (s'.pool p).base = (s.pool p).base ∧
      s'.pool p.other = s.pool p.other ∧
      s'.free_pages = (s.free_pages + cnt) % WORD ∧
      (s.free_pages + cnt < WORD → s'.free_pages = s.free_pages + cnt) ∧
      s'.total_pages = s.total_pages ∧
      (is_run (s.pool p).used_map (page_index (s.pool p) a) cnt false →
        s'.kernel_pool = s.kernel_pool ∧ s'.user_pool = s.user_pool) := by
  have hmem := owner_pool_some s a p ho
  have hge : pg_no (s.pool p).base ≤ pg_no a := by
    unfold page_from_pool at hmem
    simp only [Bool.and_eq_true, decide_eq_true_eq, ge_iff_le] at hmem
    exact hmem.1
  have hidx : size_sub (pg_no a) (pg_no (s.pool p).base) = page_index (s.pool p) a := by
    unfold page_index
    apply size_sub_eq _ _ hge
    unfold pg_no PGSIZE
    unfold WORD at haw
    omega
  unfold bitmap_size at hr
  obtain ⟨s', e1, e2, e3, e4, e5⟩ := free_owned a cnt s p ha ha0 (by omega) ho
    (by rw [hidx]; exact hr)
  rw [hidx] at e4
  refine ⟨s', e1, fun k => ?_, ?_, ?_, e5, e3, fun hlt => ?_, e2, fun hrun => ?_⟩
  · rw [e4]
    simp only
    rw [bitmap_set_loop_getElem?]
    by_cases hk : page_index (s.pool p) a ≤ k ∧ k < page_index (s.pool p) a + cnt
    · rw [if_pos hk, if_pos ⟨hk.1, hk.2, by omega⟩]
    · rw [if_neg hk, if_neg (fun hk2 => hk ⟨hk2.1, hk2.2.1⟩)]
  · rw [e4]; exact bitmap_set_loop_length _ _ _ _
  · rw [e4]
  · rw [e3]
    unfold size_add
    exact Nat.mod_eq_of_lt hlt
  · rw [set_loop_same _ _ _ _ hrun] at e4
    exact pools_eq_of_pool s s' p e4 e5

/-- C17 on the machine with 100 pages: three pages of the fresh user pool,
already free, are freed; the pools stay as they are and `free_pages` goes from
100 to 103. -/
theorem c17_double_free_witness :
    owner_pool demo_state 3222482944 = some PoolId.user ∧
    is_run (demo_state.pool PoolId.user).used_map
      (page_index (demo_state.pool PoolId.user) 3222482944) 3 false ∧
    ∃ s', palloc_free_multiple 3222482944 3 demo_state = Outcome.ret () s' ∧
      s'.kernel_pool = demo_state.kernel_pool ∧ s'.user_pool = demo_state.user_pool ∧
      s'.free_pages = demo_state.free_pages + 3 ∧
      s'.total_pages = demo_state.total_pages := by
  have ho : owner_pool demo_state 3222482944 = some PoolId.user := by decide
  have hrun : is_run (demo_state.pool PoolId.user).used_map
      (page_index (demo_state.pool PoolId.user) 3222482944) 3 false := by decide
  obtain ⟨s', h1, _, _, _, _, _, h7, h8, h9⟩ :=
    c17_double_free demo_state 3222482944 3 PoolId.user (by decide) (by omega) (by decide)
      (by omega) ho (by decide)
  exact ⟨ho, hrun, s', h1, (h9 hrun).1, (h9 hrun).2, h7 (by decide), h8⟩

/-- C20: after `palloc_init` on the machine with 100 pages, one single-page
allocation from the kernel pool returning `a` and two calls of
`palloc_free_multiple (a, 1)`, `free_pages` is `total_pages + 1` while every page of
both pools is free, and the used-page count of `report_memory_usage`,
`total_pages - free_pages` in `size_t` arithmetic, is `2 ^ 32 - 1`. -/
theorem c20_free_pages_exceeds_total :
    palloc_init 356 1000 = Outcome.ret () demo_state ∧
    palloc_get_page 0 demo_state = Outcome.ret 3222278144 demo_kernel_alloc ∧
    palloc_free_multiple 3222278144 1 demo_kernel_alloc
      = Outcome.ret () demo_kernel_freed ∧
    palloc_free_multiple 3222278144 1 demo_kernel_freed
      = Outcome.ret () demo_kernel_freed_twice ∧
    demo_kernel_freed_twice.free_pages = demo_kernel_freed_twice.total_pages + 1 ∧
    report_used_pages demo_kernel_freed_twice = 2 ^ 32 - 1 ∧
    report_used_pages demo_kernel_freed_twice = WORD - 1 ∧
    free_bits demo_kernel_freed_twice.kernel_pool.used_map
      = demo_kernel_freed_twice.kernel_pool.capacity ∧
    free_bits demo_kernel_freed_twice.user_pool.used_map
      = demo_kernel_freed_twice.user_pool.capacity :=
  ⟨palloc_init_demo, by decide, by decide, by decide, by decide, by decide, by decide,
    by decide, by decide⟩

/-! ## Lock discipline (C19) -/

theorem free_demo_eval :
    palloc_free_multiple 3222482944 3 demo_state_alloc = Outcome.ret () demo_user_freed := by
  decide

/-- C19 fails for `palloc_free_multiple`: freeing the three user pages of
`demo_state_alloc` clears bits of the user pool's bitmap without any lock
operation (the call adds a `memset` and a bitmap operation to the trace, which
breaks the discipline), whereas the allocation before it did its bitmap
operation between acquiring and releasing the user pool's lock. -/
theorem c19_free_takes_no_lock :
    palloc_get_multiple PAL_USER 3 demo_state = Outcome.ret 3222482944 demo_state_alloc ∧
    demo_state_alloc.trace = demo_state.trace ++
      [Event.lock_acquire PoolId.user, Event.bitmap_op PoolId.user,
        Event.lock_release PoolId.user] ∧
    lock_disciplined []
      [Event.lock_acquire PoolId.user, Event.bitmap_op PoolId.user,
        Event.lock_release PoolId.user] = true ∧
    palloc_free_multiple 3222482944 3 demo_state_alloc = Outcome.ret () demo_user_freed ∧
    demo_user_freed.trace = demo_state_alloc.trace ++
      [Event.memset 3222482944 204 12288, Event.bitmap_op PoolId.user] ∧
    demo_user_freed.user_pool.used_map ≠ demo_state_alloc.user_pool.used_map ∧
    locks_touched [Event.memset 3222482944 204 12288, Event.bitmap_op PoolId.user] = [] ∧
    lock_disciplined []
      [Event.memset 3222482944 204 12288, Event.bitmap_op PoolId.user] = false :=
  ⟨get_demo_eval, by decide, by decide, free_demo_eval, by decide, by decide, by decide,
    by decide⟩

/-! ## Zero-fill and the memory of the machine (C16) -/

theorem memset_after_get_events (p : PoolId) (a n : Nat) (mem : Nat → Nat) :
    memset_after [Event.lock_acquire p, Event.bitmap_op p, Event.lock_release p,
      Event.memset a 0 n] mem = memset_store a 0 n mem := rfl

theorem in_map_storage_congr (buf : Nat) (b c : Bitmap) (x : Nat)
    (h : c.length = b.length) : in_map_storage buf c x ↔ in_map_storage buf b x := by
  unfold in_map_storage bitmap_size
  rw [h]

theorem buf_fits (N : Nat) (h : bm_pages N ≤ N) :
    bitmap_buf_size (N - bm_pages N) ≤ bm_pages N * PGSIZE := by
  unfold bm_pages bitmap_buf_size DIV_ROUND_UP PGSIZE at *
  omega

theorem storage_layout (r l : Nat) (s : State) (h : List Block) (hr : Reachable r l s h) :
    used_map_addr r l PoolId.kernel + bitmap_buf_size s.kernel_pool.capacity
      ≤ s.kernel_pool.base ∧
    s.kernel_pool.base + s.kernel_pool.capacity * PGSIZE ≤ used_map_addr r l PoolId.user ∧
    used_map_addr r l PoolId.user + bitmap_buf_size s.user_pool.capacity
      ≤ s.user_pool.base := by
  obtain ⟨hram, hk, hu⟩ := reachable_fits r l s h hr
  obtain ⟨l1, l2, l3, l4, l5⟩ := reachable_layout r l s h hr
  obtain ⟨i1, i2, i3, i4, _, i6, i7⟩ := init_layout r l hram hk hu
  have fk := buf_fits _ hk
  have fu := buf_fits _ hu
  rw [i1] at l2
  rw [i3] at l3
  rw [i2] at l4
  rw [i4] at l5
  rw [l2, l3, l4, l5]
  unfold used_map_addr
  simp only
  rw [free_start_eq]
  unfold ram_ok at hram
  unfold PGSIZE WORD at *
  generalize bitmap_buf_size (kernel_pages r l - bm_pages (kernel_pages r l)) = zk at *
  generalize bitmap_buf_size (user_pages r l - bm_pages (user_pages r l)) = zu at *
  generalize bm_pages (kernel_pages r l) = bk at *
  generalize bm_pages (user_pages r l) = bu at *
  generalize kernel_pages r l = K at *
  generalize user_pages r l = U at *
  generalize total_free_pages r = T at *
  omega

theorem image_outside (r l : Nat) (s : State) (mem : Nat → Nat) (x : Nat)
    (hk : ¬ in_map_storage (used_map_addr r l PoolId.kernel) s.kernel_pool.used_map x)
    (hu : ¬ in_map_storage (used_map_addr r l PoolId.user) s.user_pool.used_map x) :
    s.image r l mem x = mem x := by
  unfold State.image
  rw [if_neg hk, if_neg hu]

theorem image_frame (r l : Nat) (s s' : State) (p : PoolId) (mem mem' : Nat → Nat) (x : Nat)
    (hlen : (s'.pool p).used_map.length = (s.pool p).used_map.length)
    (ho : s'.pool p.other = s.pool p.other)
    (hx : ¬ in_map_storage (used_map_addr r l p) (s.pool p).used_map x)
    (hm : mem' x = mem x) : s'.image r l mem' x = s.image r l mem x := by
  unfold State.image
  cases p
  · simp only [State.pool, PoolId.other] at hlen ho hx
    have hx' := fun h => hx ((in_map_storage_congr _ _ _ x hlen).mp h)
    rw [if_neg hx, if_neg hx', ho, hm]
  · simp only [State.pool, PoolId.other] at hlen ho hx
    have hx' := fun h => hx ((in_map_storage_congr _ _ _ x hlen).mp h)
    rw [ho, hm, if_neg hx, if_neg hx']

theorem range_outside_storage (r l : Nat) (s : State) (h : List Block)
    (hr : Reachable r l s h) (p : PoolId) (x : Nat)
    (hx : (s.pool p).base ≤ x ∧ x < (s.pool p).base + (s.pool p).capacity * PGSIZE) :
    ¬ in_map_storage (used_map_addr r l PoolId.kernel) s.kernel_pool.used_map x ∧
    ¬ in_map_storage (used_map_addr r l PoolId.user) s.user_pool.used_map x := by
  obtain ⟨f1, f2, f3⟩ := storage_layout r l s h hr
  unfold in_map_storage
  unfold Pool.capacity at f1 f2 f3 hx
  generalize bitmap_buf_size (bitmap_size s.kernel_pool.used_map) = zk at *
  generalize bitmap_buf_size (bitmap_size s.user_pool.used_map) = zu at *
  cases p
  · simp only [State.pool] at hx
    constructor <;> omega
  · simp only [State.pool] at hx
    constructor <;> omega

theorem storage_below_base (r l : Nat) (s : State) (h : List Block)
    (hr : Reachable r l s h) (p : PoolId) (x : Nat)
    (hx : in_map_storage (used_map_addr r l p) (s.pool p).used_map x) :
    x < (s.pool p).base := by
  obtain ⟨f1, f2, f3⟩ := storage_layout r l s h hr
  unfold in_map_storage at hx
  unfold Pool.capacity at f1 f3
  cases p
  · simp only [State.pool] at hx ⊢
    omega
  · simp only [State.pool] at hx ⊢
    omega

/-- C16, as stated, fails: the successful allocation of three zeroed user pages
on the machine with 100 pages changes a byte outside the returned range
`[0xc0133000, 0xc0136000)`: the first byte of the stored bits of the user
pool's bitmap, at `0xc0132008` in the bitmap page before the pool's base, goes
from 0 to 7 as `bitmap_scan_and_flip` sets bits 0, 1 and 2. -/
theorem c16_bitmap_byte_written :
    Reachable 356 1000 demo_state [] ∧
    has_flag (PAL_USER ||| PAL_ZERO) PAL_ZERO = true ∧
    palloc_get_multiple (PAL_USER ||| PAL_ZERO) 3 demo_state
      = Outcome.ret 3222482944 demo_state_zero ∧
    demo_state_zero.trace = demo_state.trace ++
      [Event.lock_acquire PoolId.user, Event.bitmap_op PoolId.user,
        Event.lock_release PoolId.user, Event.memset 3222482944 0 12288] ∧
    used_map_addr 356 1000 PoolId.user + 8 = 3222478856 ∧
    ¬ (3222482944 ≤ 3222478856 ∧ 3222478856 < 3222482944 + PGSIZE * 3) ∧
    demo_state.image 356 1000 (fun _ => 0) 3222478856 = 0 ∧
    demo_state_zero.image 356 1000
      (memset_after
        [Event.lock_acquire PoolId.user, Event.bitmap_op PoolId.user,
          Event.lock_release PoolId.user, Event.memset 3222482944 0 12288]
        (fun _ => 0)) 3222478856 = 7 := by
  have hu : used_map_addr 356 1000 PoolId.user = 3222478848 := by
    unfold used_map_addr
    simp only
    rw [kernel_pages_demo, free_start_eq]
    rfl
  have hk : used_map_addr 356 1000 PoolId.kernel = 3222274048 := free_start_eq
  refine ⟨reachable_demo, by decide, by decide, by decide, by rw [hu], by decide, ?_, ?_⟩
  · unfold State.image
    rw [hu, hk]
    decide
  · unfold State.image
    rw [hu, hk, memset_after_get_events]
    decide

/-- C16, amended: in a reachable state, after a successful
`palloc_get_multiple (flags, page_cnt)` with `PAL_ZERO` set, every byte in
`[address, address + PGSIZE * page_cnt)`, a range inside the address space,
reads as zero; the call's one `memset` covers exactly that range, and a byte of
memory outside the range that differs after the call is a byte of the stored
bits of the selected pool's in-band bitmap, in the bitmap pages before the
pool's base.  Of the allocator's variables the call leaves `total_pages`, the
bases and the other pool as they are, decreases `free_pages` by `page_cnt`, and
takes and releases the selected pool's lock only. -/
theorem c16_zero_fill (r l : Nat) (s s' : State) (h : List Block) (flags cnt a : Nat)
    (hr : Reachable r l s h) (hz : has_flag flags PAL_ZERO = true)
    (hget : palloc_get_multiple flags cnt s = Outcome.ret a s') (ha : a ≠ 0) :
    a + PGSIZE * cnt ≤ WORD ∧
    ∃ evs, s'.trace = s.trace ++ evs ∧
      evs = [Event.lock_acquire (select_pool flags), Event.bitmap_op (select_pool flags),
        Event.lock_release (select_pool flags), Event.memset a 0 (PGSIZE * cnt)] ∧
      (∀ (mem : Nat → Nat) (x : Nat), a ≤ x ∧ x < a + PGSIZE * cnt →
        s'.image r l (memset_after evs mem) x = 0) ∧
      (∀ (mem : Nat → Nat) (x : Nat), ¬ (a ≤ x ∧ x < a + PGSIZE * cnt) →
        s'.image r l (memset_after evs mem) x ≠ s.image r l mem x →
        in_map_storage (used_map_addr r l (select_pool flags))
            (s.pool (select_pool flags)).used_map x ∧
          x < (s.pool (select_pool flags)).base) ∧
      s'.total_pages = s.total_pages ∧
      (s'.pool (select_pool flags)).base = (s.pool (select_pool flags)).base ∧
      s'.pool (select_pool flags).other = s.pool (select_pool flags).other ∧
      s'.free_pages + cnt = s.free_pages ∧
      locks_touched evs = [select_pool flags, select_pool flags] := by
  have hinv := reachable_inv r l s h hr
  obtain ⟨i, _, hi, hadr, hofs, hno, e2, e3, e4, e5⟩ :=
    get_success r l s s' h flags cnt a hr hget ha
  have hr' : Reachable r l s' ((a, cnt) :: h) := by
    have := Reachable.get s s' h flags cnt a hr hget
    rwa [if_neg ha] at this
  obtain ⟨gp1, gp2, gp3⟩ := geometry_pool s hinv.1 (select_pool flags)
  have hlen := hi.1
  have hsz : (PGSIZE * cnt) % WORD = PGSIZE * cnt := by
    unfold pg_no PGSIZE at gp3
    unfold PGSIZE WORD
    omega
  have hend : a + PGSIZE * cnt ≤ WORD := by
    unfold pg_no PGSIZE at gp3 hno
    unfold pg_ofs PGSIZE at hofs gp1
    unfold PGSIZE WORD
    omega
  have htrace : s'.trace = s.trace ++
      [Event.lock_acquire (select_pool flags), Event.bitmap_op (select_pool flags),
        Event.lock_release (select_pool flags), Event.memset a 0 (PGSIZE * cnt)] := by
    rcases get_ret_cases flags cnt a s s' hget with ⟨h0, _⟩ | ⟨j, hc, hs, hadr', _⟩
    · exact absurd h0 ha
    · obtain ⟨t, w1, w2⟩ := get_trace_found flags cnt j s hc hs
      rw [w1] at hget
      injection hget with _ hst
      subst hst
      rw [← hadr', hz, if_pos rfl, hsz] at w2
      rw [w2]
      rfl
  have hplen : (s'.pool (select_pool flags)).used_map.length
      = (s.pool (select_pool flags)).used_map.length := by
    rw [e4]; exact bitmap_set_loop_length _ _ _ _
  have hpbase : (s'.pool (select_pool flags)).base = (s.pool (select_pool flags)).base := by
    rw [e4]
  refine ⟨hend, _, htrace, rfl, fun mem x hx => ?_, fun mem x hx hne => ?_, e2, hpbase, e5,
    e3, rfl⟩
  · have hin : (s'.pool (select_pool flags)).base ≤ x ∧
        x < (s'.pool (select_pool flags)).base
          + (s'.pool (select_pool flags)).capacity * PGSIZE := by
      unfold Pool.capacity bitmap_size
      rw [hpbase, hplen]
      unfold PGSIZE at hadr hx ⊢
      constructor
      · omega
      · have : 4096 * (i + cnt) ≤ (s.pool (select_pool flags)).used_map.length * 4096 := by
          omega
        omega
    obtain ⟨n1, n2⟩ := range_outside_storage r l s' _ hr' (select_pool flags) x hin
    rw [image_outside r l s' _ x n1 n2, memset_after_get_events]
    unfold memset_store
    rw [if_pos hx]
  · by_contra hcon
    have hnot : ¬ in_map_storage (used_map_addr r l (select_pool flags))
        (s.pool (select_pool flags)).used_map x := by
      intro hst
      exact hcon ⟨hst, storage_below_base r l s h hr _ x hst⟩
    apply hne
    apply image_frame r l s s' (select_pool flags) _ _ x hplen e5 hnot
    rw [memset_after_get_events]
    unfold memset_store
    rw [if_neg hx]

/-- C16, amended, on the machine with 100 pages: three zeroed user pages. -/
theorem c16_zero_fill_witness :
    Reachable 356 1000 demo_state [] ∧
    has_flag (PAL_USER ||| PAL_ZERO) PAL_ZERO = true ∧
    palloc_get_multiple (PAL_USER ||| PAL_ZERO) 3 demo_state
      = Outcome.ret 3222482944 demo_state_zero ∧
    3222482944 + PGSIZE * 3 ≤ WORD ∧
    ∃ evs, demo_state_zero.trace = demo_state.trace ++ evs ∧
      evs = [Event.lock_acquire (select_pool (PAL_USER ||| PAL_ZERO)),
        Event.bitmap_op (select_pool (PAL_USER ||| PAL_ZERO)),
        Event.lock_release (select_pool (PAL_USER ||| PAL_ZERO)),
        Event.memset 3222482944 0 (PGSIZE * 3)] ∧
      (∀ (mem : Nat → Nat) (x : Nat), 3222482944 ≤ x ∧ x < 3222482944 + PGSIZE * 3 →
        demo_state_zero.image 356 1000 (memset_after evs mem) x = 0) ∧
      (∀ (mem : Nat → Nat) (x : Nat), ¬ (3222482944 ≤ x ∧ x < 3222482944 + PGSIZE * 3) →
        demo_state_zero.image 356 1000 (memset_after evs mem) x
          ≠ demo_state.image 356 1000 mem x →
        in_map_storage (used_map_addr 356 1000 (select_pool (PAL_USER ||| PAL_ZERO)))
            (demo_state.pool (select_pool (PAL_USER ||| PAL_ZERO))).used_map x ∧
          x < (demo_state.pool (select_pool (PAL_USER ||| PAL_ZERO))).base) ∧
      demo_state_zero.total_pages = demo_state.total_pages ∧
      (demo_state_zero.pool (select_pool (PAL_USER ||| PAL_ZERO))).base
        = (demo_state.pool (select_pool (PAL_USER ||| PAL_ZERO))).base ∧
      demo_state_zero.pool (select_pool (PAL_USER ||| PAL_ZERO)).other
        = demo_state.pool (select_pool (PAL_USER ||| PAL_ZERO)).other ∧
      demo_state_zero.free_pages + 3 = demo_state.free_pages ∧
      locks_touched evs
        = [select_pool (PAL_USER ||| PAL_ZERO), select_pool (PAL_USER ||| PAL_ZERO)] :=
  ⟨reachable_demo, by decide, by decide,
    c16_zero_fill 356 1000 demo_state demo_state_zero [] (PAL_USER ||| PAL_ZERO) 3
      3222482944 reachable_demo (by decide) (by decide) (by omega)⟩

end Palloc
